import Mathlib

/-!
A shallow embedding of the GitHub webhook handling core of the repository
(`src/roundup/github.py`): the regular-expression reference extractors, the
request authenticator, and the three event handlers (pull request, issue
comment, push) together with the slice of the tracker store they drive.

The tracker store itself (hyperdb classes `issue`, `pull_request`, `msg`,
`user` and the `status`/`resolution`/`stage` enumerations) is not part of the
staged sources; its operations are modelled from the spec's collaborator
contract (section 6) wherever a definition below says so.
-/

namespace BpoRoundup

/-! ### Character classes of the Python regular expressions
The ASCII fragment of `\w`, `\s`, `\d` under `re.U`; the inputs the claims
are settled on are ASCII. -/

def isWordChar (c : Char) : Bool := c.isAlphanum || c = '_'

def isSpaceChar (c : Char) : Bool :=
  c = ' ' || c = '\t' || c = '\n' || c = '\r' || c.toNat = 11 || c.toNat = 12

def isDigitChar (c : Char) : Bool := c.isDigit

/-- The characters `str.splitlines` breaks a line at (ASCII fragment). -/
def isLineBreak (c : Char) : Bool :=
  c = '\n' || c = '\r' || c.toNat = 11 || c.toNat = 12

/-- Case-insensitive character comparison (`re.I`). -/
def lowerEq (c d : Char) : Bool := c.toLower = d.toLower

/-- Match a literal case-insensitively at the head of `rest`; returns the
remainder on success. -/
def matchLitCI : List Char → List Char → Option (List Char)
  | [], rest => some rest
  | _ :: _, [] => none
  | l :: ls, c :: cs => if lowerEq c l then matchLitCI ls cs else none

/-- Match a literal case-sensitively at the head of `rest`. -/
def matchLit : List Char → List Char → Option (List Char)
  | [], rest => some rest
  | _ :: _, [] => none
  | l :: ls, c :: cs => if c = l then matchLit ls cs else none

def isWordOpt : Option Char → Bool
  | none => false
  | some c => isWordChar c

/-- The `\b` zero-width assertion between the previous character (`none` at
the start of the text) and the next one (`none` at the end). -/
def wordBoundary (prev next : Option Char) : Bool := isWordOpt prev != isWordOpt next

/-! ### ISSUE_GH_RE = `bpo\s*(\d+)` with `re.I` -/

/-- One attempt of `ISSUE_GH_RE` anchored at the head of `rest`: the literal
`bpo`, optional whitespace, then one or more digits (group 1, taken
greedily).  Returns the captured digits and the remainder. -/
def ghMatchAt (rest : List Char) : Option (String × List Char) :=
  match matchLitCI ['b', 'p', 'o'] rest with
  | none => none
  | some r1 =>
    let r2 := r1.dropWhile isSpaceChar
    let ds := r2.takeWhile isDigitChar
    if ds.isEmpty then none else some (String.mk ds, r2.drop ds.length)

/-- `finditer`-style scan for `ISSUE_GH_RE`: leftmost matches, resuming after
each match.  `fuel` bounds the scan; one unit is spent per position tried. -/
def ghFindAux : Nat → List Char → List String
  | 0, _ => []
  | _ + 1, [] => []
  | fuel + 1, c :: cs =>
    match ghMatchAt (c :: cs) with
    | some (id, rest) => id :: ghFindAux fuel rest
    | none => ghFindAux fuel cs

/-- `ISSUE_GH_RE.findall(s)`. -/
def ISSUE_GH_findall (s : String) : List String := ghFindAux (s.length + 1) s.data

/-! ### ISSUE_BPO_RE = `(?:\b(?P<verb>close[sd]?|closing|)\s+)?(?:#|\bissue|\bbug)\s*(?P<issue_id>\d+)` with `re.I|re.U`
Note the trailing `|` inside the verb group: the empty string is one of its
alternatives, so the group can participate in a match capturing `''`. -/

/-- `(?:#|\bissue|\bbug)\s*(?P<issue_id>\d+)` anchored at the current
position; `prev` is the character just before it.  Returns the captured
digits and the remainder.  The three marker alternatives start with distinct
characters, so no backtracking between them can occur; `\s*` and `\d+` are
maximal-munch because no marker or digit is whitespace. -/
def markerNumAt (prev : Option Char) (rest : List Char) : Option (List Char × List Char) :=
  let tail : List Char → Option (List Char × List Char) := fun r =>
    let r1 := r.dropWhile isSpaceChar
    let ds := r1.takeWhile isDigitChar
    if ds.isEmpty then none else some (ds, r1.drop ds.length)
  match rest with
  | '#' :: r => tail r
  | _ =>
    if wordBoundary prev rest.head? then
      match matchLitCI ['i', 's', 's', 'u', 'e'] rest with
      | some r => tail r
      | none =>
        match matchLitCI ['b', 'u', 'g'] rest with
        | some r => tail r
        | none => none
    else none

/-- After a verb alternative has consumed up to `r`: `\s+`, then the marker
and digits.  The verb group's (canonically lower-cased) value is `v`. -/
def afterVerb (v : String) (r : List Char) : Option (Option String × List Char × List Char) :=
  if (r.takeWhile isSpaceChar).isEmpty then none
  else
    match markerNumAt (r.takeWhile isSpaceChar).getLast? (r.dropWhile isSpaceChar) with
    | some (ds, r2) => some (some v, ds, r2)
    | none => none

/-- One attempt of `ISSUE_BPO_RE` anchored at the current position, with the
same backtracking order as Python: the optional verb group first (its
alternatives in written order, `[sd]?` greedily, the empty alternative last),
then the group-absent path. -/
def bpoMatchAt (prev : Option Char) (rest : List Char) : Option (Option String × List Char × List Char) :=
  let verbPath : Option (Option String × List Char × List Char) :=
    if wordBoundary prev rest.head? then
      (match matchLitCI ['c', 'l', 'o', 's', 'e'] rest with
       | some r =>
         (match r with
          | c :: r2 =>
            if lowerEq c 's' then afterVerb "closes" r2
            else if lowerEq c 'd' then afterVerb "closed" r2
            else none
          | [] => none)
         <|> afterVerb "close" r
       | none => none)
      <|> (match matchLitCI ['c', 'l', 'o', 's', 'i', 'n', 'g'] rest with
           | some r => afterVerb "closing" r
           | none => none)
      <|> afterVerb "" rest
    else none
  verbPath <|> ((markerNumAt prev rest).map (fun p => (none, p.1, p.2)))

/-- `finditer`-style scan for `ISSUE_BPO_RE`: each element is the verb
group's value (`none` when the group did not participate) and the captured
issue id. -/
def bpoFindAux : Nat → Option Char → List Char → List (Option String × String)
  | 0, _, _ => []
  | _ + 1, _, [] => []
  | fuel + 1, prev, c :: cs =>
    match bpoMatchAt prev (c :: cs) with
    | some (v, ds, rest) => (v, String.mk ds) :: bpoFindAux fuel ds.getLast? rest
    | none => bpoFindAux fuel (some c) cs

/-- `ISSUE_BPO_RE.finditer(s)`, as (verb group, issue id) pairs. -/
def ISSUE_BPO_finditer (s : String) : List (Option String × String) :=
  bpoFindAux (s.length + 1) none s.data

/-! ### URL_RE = `https://github.com/python/cpython/pull/(?P<number>\d+)`
Compiled without `re.I`; the two dots are unescaped, so each matches any
single character except a newline. -/

/-- One attempt of `URL_RE` anchored at the head of `rest`; returns the
captured number. -/
def urlMatchAt (rest : List Char) : Option String :=
  match matchLit "https://github".data rest with
  | none => none
  | some [] => none
  | some (c :: r2) =>
    if c = '\n' then none
    else
      match matchLit "com/python/cpython/pull/".data r2 with
      | none => none
      | some r3 =>
        if (r3.takeWhile isDigitChar).isEmpty then none
        else some (String.mk (r3.takeWhile isDigitChar))

def urlSearchAux : Nat → List Char → Option String
  | 0, _ => none
  | _ + 1, [] => none
  | fuel + 1, c :: cs =>
    match urlMatchAt (c :: cs) with
    | some n => some n
    | none => urlSearchAux fuel cs

/-- `URL_RE.search(s)`, returning the `number` group of the first match. -/
def URL_RE_search (s : String) : Option String := urlSearchAux (s.length + 1) s.data

/-! ### The comment template and per-commit rendering -/

/-- `str.splitlines()[0]` on a string that has at least one character before
a line break (the only way the code reaches it). -/
def splitlinesFirst (s : String) : String :=
  String.mk (s.data.takeWhile (fun c => !isLineBreak c))

/-- Python's `str.split(sep)` for a one-character separator: splits at every
occurrence, keeping empty pieces (`''.split('/') == ['']`). -/
def pySplit (sep : Char) : List Char → List (List Char)
  | [] => [[]]
  | c :: cs =>
    let r := pySplit sep cs
    if c = sep then [] :: r
    else
      match r with
      | [] => [[c]]
      | h :: t => (c :: h) :: t

/-- `ref.split('/')[-1]`. -/
def lastSegment (ref : String) : String :=
  String.mk (((pySplit '/' ref.data).getLast?).getD [])

/-- Case-insensitive substring occurrence test (used only to state that a
text contains none of the close verbs). -/
def containsCI (needle : List Char) : List Char → Bool
  | [] => needle.isEmpty
  | c :: cs => (matchLitCI needle (c :: cs)).isSome || containsCI needle cs

/-- `COMMENT_TEMPLATE.format(...)`. -/
def COMMENT_TEMPLATE (changesetId author branch commitMsg changesetUrl : String) : String :=
  "New changeset " ++ changesetId ++ " by " ++ author ++ " in branch '" ++ branch ++
    "':\n" ++ commitMsg ++ "\n" ++ changesetUrl ++ "\n"

/-- One entry of a push payload's `commits` list; absent JSON fields are
already defaulted to `""` as the `.get(..., '')` calls do. -/
structure Commit where
  id : String := ""
  message : String := ""
  url : String := ""
  committerName : String := ""
deriving Repr, DecidableEq

/-- `Push.handle_action(commit, ref)`: scan the commit message with
`ISSUE_BPO_RE`, skip issue ids already seen in the same message, and render
one comment block per issue id.  The Python dict is modelled as an
insertion-ordered association list. -/
def push_handle_action (commit : Commit) (ref : String) : List (String × String × Bool) :=
  let branch := lastSegment ref
  (ISSUE_BPO_finditer commit.message).foldl
    (fun msgs vd =>
      if msgs.any (fun e => e.1 == vd.2) then msgs
      else
        msgs ++ [(vd.2,
          COMMENT_TEMPLATE commit.id commit.committerName branch
            (splitlinesFirst commit.message) commit.url,
          vd.1.isSome)])
    []

/-! ### The tracker-store model -/

/-- A `pull_request` node: `number`, `title`, `status` as stored by
`create`/`set` (roundup String properties; `none` is an unset property). -/
structure PRNode where
  number : Option String
  title : Option String
  status : Option String
deriving Repr, DecidableEq

structure MsgNode where
  content : String
  author : String
deriving Repr, DecidableEq

structure Issue where
  title : String := ""
  messages : List Nat := []
  pullRequests : List Nat := []
  status : Option String := none
  resolution : Option String := none
  stage : Option String := none
deriving Repr, DecidableEq

structure UserNode where
  username : String
  github : String
deriving Repr, DecidableEq

/-- Modelled from the spec: the tracker store at the section-6 boundary.
Issue/pull-request/message classes are keyed association lists with a fresh-id
counter each; `commits` counts the `commit()` calls of the current
delivery. -/
structure DB where
  issues : List (String × Issue) := []
  prNodes : List (Nat × PRNode) := []
  nextPr : Nat := 0
  msgs : List (Nat × MsgNode) := []
  nextMsg : Nat := 0
  nextIssue : Nat := 1
  users : List (Nat × UserNode) := []
  curUser : String := "anonymous"
  commits : Nat := 0
deriving Repr, DecidableEq

/-- Modelled from the spec: `get_issue_field(id, ...)`'s node lookup. -/
def lookupIssue (db : DB) (id : String) : Option Issue :=
  (db.issues.find? (fun p => p.1 == id)).map (·.2)

/-- Modelled from the spec: `set_issue_field`; replaces the node in place. -/
def issueSet (db : DB) (id : String) (iss : Issue) : DB :=
  { db with issues := db.issues.map (fun p => if p.1 == id then (p.1, iss) else p) }

/-- Modelled from the spec: `set_issue_field` — look the node up and replace
one field (the code's `db.issue.set(id, field=value)` calls). -/
def setIssueField (db : DB) (issueId : String) (f : Issue → Issue) : DB :=
  match lookupIssue db issueId with
  | none => db
  | some i2 => issueSet db issueId (f i2)

/-- Modelled from the spec: `find_issues({'id': ids})` — the stored issues
whose id is in `ids`, in store order. -/
def issueFilterIds (db : DB) (ids : List String) : List String :=
  (db.issues.filter (fun p => ids.contains p.1)).map (·.1)

/-- Modelled from the spec: `get_link`'s node lookup. -/
def lookupPr (db : DB) (id : Nat) : Option PRNode :=
  (db.prNodes.find? (fun p => p.1 == id)).map (·.2)

/-- Modelled from the spec: `set_link`. -/
def prSet (db : DB) (id : Nat) (node : PRNode) : DB :=
  { db with prNodes := db.prNodes.map (fun p => if p.1 == id then (p.1, node) else p) }

/-- Modelled from the spec: `find_links({'number': num})`. -/
def prFilterNumber (db : DB) (num : Option String) : List Nat :=
  (db.prNodes.filter (fun p => p.2.number == num)).map (·.1)

/-- Modelled from the spec: `create_link(number, title, status)`. -/
def prCreate (db : DB) (num : Option String) (title status : Option String) : DB × Nat :=
  ({ db with prNodes := db.prNodes ++ [(db.nextPr, ⟨num, title, status⟩)],
             nextPr := db.nextPr + 1 }, db.nextPr)

/-- Modelled from the spec: `create_message(content, author, timestamp)`. -/
def msgCreate (db : DB) (content : String) : DB × Nat :=
  ({ db with msgs := db.msgs ++ [(db.nextMsg, ⟨content, db.curUser⟩)],
             nextMsg := db.nextMsg + 1 }, db.nextMsg)

/-- Modelled from the spec: message-node lookup (the stored `msg` class). -/
def lookupMsg (db : DB) (mid : Nat) : Option MsgNode :=
  (db.msgs.find? (fun p => p.1 == mid)).map (·.2)

/-- Modelled from the spec: issue creation (`db.issue.create(title=...)`);
returns the new issue's id string. -/
def issueCreate (db : DB) (title : String) : DB × String :=
  let id := toString db.nextIssue
  ({ db with issues := db.issues ++ [(id, { title := title })],
             nextIssue := db.nextIssue + 1 }, id)

/-- Modelled from the spec: `commit()`. -/
def dbCommit (db : DB) : DB := { db with commits := db.commits + 1 }

/-- Modelled from the spec: `lookup_enum` — the symbolic name itself. -/
def statusLookup (name : String) : String := name

/-- Modelled from the spec: `db.user.filter(None, {'github': login})`. -/
def userFilterGithub (db : DB) (login : String) : List Nat :=
  (db.users.filter (fun p => p.2.github == login)).map (·.1)

/-- Modelled from the spec: `db.user.filter(None, {'username': name})`. -/
def userFilterUsername (db : DB) (name : String) : List Nat :=
  (db.users.filter (fun p => p.2.username == name)).map (·.1)

/-- Modelled from the spec: `db.user.get(uid, 'username')`. -/
def userGetUsername (db : DB) (uid : Nat) : String :=
  ((db.users.find? (fun p => p.1 == uid)).map (·.2.username)).getD ""

/-- `Event.set_roundup_user`: resolve the GitHub login to a tracker user,
falling back to `python-dev`, else staying anonymous. -/
def set_roundup_user (db : DB) (githubUsername : String) : DB :=
  match (if (userFilterGithub db githubUsername).isEmpty then
           userFilterUsername db "python-dev"
         else userFilterGithub db githubUsername).head? with
  | none => db
  | some uid => { db with curUser := userGetUsername db uid }

/-! ### Errors and the authenticator -/

inductive GHError where
  | reject
  | unauthorised
  | methodNotAllowed
  | unsupportedMediaType
  | indexError
  | attributeError
  | typeError
deriving Repr, DecidableEq

/-- `compare_digest` (`hmac.compare_digest` when available, `==` otherwise):
functionally, string equality. -/
def compare_digest (a b : String) : Bool := a == b

/-- `GitHubHandler.validate_webhook_secret`, parametrised by the HMAC-SHA1
hex-digest function (an external library call): `hmacSha1Hex key body`. -/
def validate_webhook_secret (hmacSha1Hex : String → String → String)
    (secretKey : Option String) (body : String) (sigHeader : Option String) :
    Except GHError Unit :=
  match secretKey with
  | none => .error .reject
  | some key =>
    let signature := "sha1=" ++ hmacSha1Hex key body
    let headerSignature := sigHeader.getD ""
    if compare_digest signature headerSignature then .ok () else .error .unauthorised

/-- `GitHubHandler.verify_request`: method, then content type, then the
event-type header. -/
def verify_request (method contentType eventHeader : Option String) : Except GHError Unit :=
  if method == some "POST" then
    if contentType == some "application/json" then
      match eventHeader with
      | none => .error .reject
      | some _ => .ok ()
  else .error .unsupportedMediaType
  else .error .methodNotAllowed

/-- The authentication prefix of `GitHubHandler.dispatch`:
`verify_request()` then `validate_webhook_secret()`. -/
def webhook_auth (hmacSha1Hex : String → String → String)
    (method contentType eventHeader secretKey : Option String)
    (body : String) (sigHeader : Option String) : Except GHError Unit := do
  verify_request method contentType eventHeader
  validate_webhook_secret hmacSha1Hex secretKey body sigHeader

/-! ### Link reconciliation (`Event.handle_create` / `Event.handle_update`) -/

/-- The per-issue body of `Event.handle_create`'s loop: skip when a link
with the same number is already attached to the issue, else create and
attach a new link and commit (`if not title: title = ""` is the falsy
coercion of title and status, applied on every iteration as in the code). -/
def handle_create_body (prid title status : Option String) (db : DB) (issueId : String) :
    DB :=
  match lookupIssue db issueId with
  | none => db
  | some iss =>
    let prs := iss.pullRequests
    if prs.any (fun p => (prFilterNumber db prid).contains p) then db
    else
      let (db, newpr) := prCreate db prid (some (title.getD "")) (some (status.getD ""))
      dbCommit (issueSet db issueId { iss with pullRequests := prs ++ [newpr] })

/-- `Event.handle_create`: verify every target issue exists, then run the
loop body over the target issues. -/
def handle_create (db : DB) (prid : Option String) (title status : Option String)
    (issueIds : List String) : DB :=
  if (issueFilterIds db issueIds).length == issueIds.length then
    issueIds.foldl (handle_create_body prid title status) db
  else db

/-- `Event.handle_update`: bail out on a falsy title; verify every target
issue exists; per issue, update every attached link whose number matches
(committing per update), else fall back to `handle_create` for that issue. -/
def handle_update (db : DB) (prid : Option String) (title status : Option String)
    (issueIds : List String) : DB :=
  if title.getD "" == "" then db
  else if (issueFilterIds db issueIds).length == issueIds.length then
    issueIds.foldl
      (fun db issueId =>
        match lookupIssue db issueId with
        | none => db
        | some iss =>
          let prs := iss.pullRequests
          if prs.any (fun p => (prFilterNumber db prid).contains p) then
            prs.foldl
              (fun db prId =>
                match lookupPr db prId with
                | none => db
                | some node =>
                  if node.number == prid then
                    dbCommit (prSet db prId { node with title := title, status := status })
                  else db)
              db
          else handle_create db prid title status [issueId])
      db
  else db

/-! ### Event payloads and dispatch -/

/-- The fields of a `pull_request` JSON object the code reads; absent string
fields already defaulted to `""` as `.get(..., '')` does. -/
structure PRObj where
  number : Option Nat := none
  title : String := ""
  body : String := ""
  state : String := ""
  merged : Bool := false
  userLogin : String := ""
deriving Repr, DecidableEq

structure PRPayload where
  action : Option String := none
  pullRequest : Option PRObj := none
deriving Repr, DecidableEq

/-- `os.environ.get('CREATE_ISSUE', False)` used as a condition: truthy
exactly for a non-empty string value. -/
def envTruthy : Option String → Bool
  | none => false
  | some s => s != ""

/-- `list(set(xs))` where later duplicates are dropped (Python's set order is
arbitrary; first-occurrence order is one refinement of it, and no claim
depends on the order across distinct ids). -/
def dedupFirst (l : List String) : List String :=
  l.foldl (fun acc x => if acc.contains x then acc else acc ++ [x]) []

/-- The issue ids `PullRequest.get_issue_ids` extracts from a present
`pull_request` object: `ISSUE_GH_RE` over title and body, de-duplicated. -/
def prExtractedIds (pr : PRObj) : List String :=
  dedupFirst (ISSUE_GH_findall pr.title ++ ISSUE_GH_findall pr.body)

def PR_get_issue_ids (data : PRPayload) : Except GHError (List String) :=
  match data.pullRequest with
  | none => .error .reject
  | some pr => .ok (prExtractedIds pr)

def PR_get_pr_details (data : PRPayload) :
    Except GHError (Option String × Option String × Option String) :=
  match data.pullRequest with
  | none => .error .reject
  | some pr =>
    match pr.number with
    | none => .error .reject
    | some n =>
      let status := if pr.merged then "merged" else pr.state
      .ok (some (toString n), some pr.title, some status)

def PR_get_github_username (data : PRPayload) : Except GHError String :=
  match data.pullRequest with
  | none => .error .reject
  | some pr => .ok pr.userLogin

/-- `PullRequest.handle_action`. -/
def PR_handle_action (db : DB) (action : String) (prid title status : Option String)
    (issueIds : List String) : Except GHError DB :=
  if action == "opened" || action == "created" then
    .ok (handle_create db prid title status issueIds)
  else if action == "edited" || action == "closed" then
    .ok (handle_update db prid title status issueIds)
  else .ok db

/-- `Event.dispatch`, parametrised by the subclass methods: resolve and set
the actor, extract issue ids, optionally auto-create an issue when none were
found and `CREATE_ISSUE` is truthy (note `list(create(...))` splits the new
id string into its characters), then extract PR details and hand over to
`handle_action`. -/
def event_dispatch
    (getGithubUsername : Except GHError String)
    (getIssueIds : Except GHError (List String))
    (getPrDetails : Except GHError (Option String × Option String × Option String))
    (handleAction : DB → String → Option String → Option String → Option String →
      List String → Except GHError DB)
    (prTitleForCreate : Except GHError String)
    (createIssueEnv : Option String)
    (action : String)
    (db : DB) : Except GHError DB := do
  let login ← getGithubUsername
  let db := set_roundup_user db login
  let ids ← getIssueIds
  let (db, ids) ←
    if ids.isEmpty then
      if envTruthy createIssueEnv then do
        let t ← prTitleForCreate
        let (db2, newId) := issueCreate db t
        pure (db2, newId.data.map (fun c => String.mk [c]))
      else pure (db, ids)
    else pure (db, ids)
  let details ← getPrDetails
  handleAction db action details.1 details.2.1 details.2.2 ids

/-- `PullRequest(db, data).dispatch()`.  The auto-create branch reads the
payload's `pull_request` title (`AttributeError` when the object is
absent). -/
def PullRequest_dispatch (createIssueEnv : Option String) (data : PRPayload) (db : DB) :
    Except GHError DB :=
  event_dispatch (PR_get_github_username data) (PR_get_issue_ids data)
    (PR_get_pr_details data) PR_handle_action
    (match data.pullRequest with
     | none => .error .attributeError
     | some pr => .ok pr.title)
    createIssueEnv ((data.action).getD "") db

/-- The fields of an `issue_comment` payload's `issue` object the code
reads.  `pullRequestHtmlUrl` is `issue['pull_request']['html_url']`, `none`
when either key is absent (then `data.get(...)` chains yield `None`). -/
structure ICIssue where
  title : String := ""
  pullRequestHtmlUrl : Option String := none
  userLogin : String := ""
deriving Repr, DecidableEq

/-- An `issue_comment` payload: `commentBody` is `none` when the payload has
no `comment` object, else that object's body (defaulted to `""`). -/
structure ICPayload where
  action : Option String := none
  issue : Option ICIssue := none
  commentBody : Option String := none
deriving Repr, DecidableEq

def IC_get_issue_ids (data : ICPayload) : Except GHError (List String) :=
  match data.issue with
  | none => .error .reject
  | some iss =>
    match data.commentBody with
    | none => .error .reject
    | some body => .ok (dedupFirst (ISSUE_GH_findall iss.title ++ ISSUE_GH_findall body))

/-- `IssueComment.get_pr_details`: `URL_RE.search` on the issue's
pull-request URL (`TypeError` when that URL is `None`); no match yields
`(None, None, None)`. -/
def IC_get_pr_details (data : ICPayload) :
    Except GHError (Option String × Option String × Option String) :=
  match data.issue with
  | none => .error .reject
  | some iss =>
    match iss.pullRequestHtmlUrl with
    | none => .error .typeError
    | some url =>
      match URL_RE_search url with
      | some n => .ok (some n, none, none)
      | none => .ok (none, none, none)

def IC_get_github_username (data : ICPayload) : Except GHError String :=
  match data.issue with
  | none => .error .reject
  | some iss => .ok iss.userLogin

/-- `IssueComment.handle_action`. -/
def IC_handle_action (db : DB) (action : String) (prid title status : Option String)
    (issueIds : List String) : Except GHError DB :=
  if action == "created" || action == "edited" then
    .ok (handle_create db prid title status issueIds)
  else .ok db

/-- `IssueComment(db, data).dispatch()`.  An `issue_comment` payload carries
no top-level `pull_request` object, so the auto-create branch's
`data.get('pull_request').get('title', '')` raises `AttributeError`. -/
def IssueComment_dispatch (createIssueEnv : Option String) (data : ICPayload) (db : DB) :
    Except GHError DB :=
  event_dispatch (IC_get_github_username data) (IC_get_issue_ids data)
    (IC_get_pr_details data) IC_handle_action (.error .attributeError)
    createIssueEnv ((data.action).getD "") db

/-! ### The push handler -/

structure PushPayload where
  commits : List Commit := []
  ref : Option String := none
  pusherName : String := ""
deriving Repr, DecidableEq

def lookupA (l : List (String × String × Bool)) (k : String) : Option (String × Bool) :=
  (l.find? (fun p => p.1 == k)).map (·.2)

def updateA (l : List (String × String × Bool)) (k : String) (v : String × Bool) :
    List (String × String × Bool) :=
  l.map (fun p => if p.1 == k then (p.1, v) else p)

/-- The accumulation loop of `Push.dispatch`: fold every commit's
`handle_action` result into the `messages` dict, appending each new comment
after a newline and OR-ing the close flags. -/
def pushAccumulate (commits : List Commit) (ref : String) : List (String × String × Bool) :=
  commits.foldl
    (fun messages commit =>
      (push_handle_action commit ref).foldl
        (fun msgs e =>
          match lookupA msgs e.1 with
          | some cur => updateA msgs e.1 (cur.1 ++ "\n" ++ e.2.1, cur.2 || e.2.2)
          | none => msgs ++ [(e.1, "" ++ "\n" ++ e.2.1, false || e.2.2)])
        messages)
    []

/-- The per-issue mutation of `Push.dispatch`'s second loop: load the
issue's messages (`IndexError` when the id does not resolve), create and
attach the comment, and on `close` set status/resolution/stage through the
enum lookups. -/
def pushApplyOne (db : DB) (issueId msg : String) (close : Bool) : Except GHError DB :=
  match lookupIssue db issueId with
  | none => .error .indexError
  | some iss =>
    let issueMsgs := iss.messages
    let (db, newmsg) := msgCreate db msg
    let db := issueSet db issueId { iss with messages := issueMsgs ++ [newmsg] }
    if close then
      let db := setIssueField db issueId
        (fun i2 => { i2 with status := some (statusLookup "closed") })
      let db := setIssueField db issueId
        (fun i2 => { i2 with resolution := some (statusLookup "fixed") })
      let db := setIssueField db issueId
        (fun i2 => { i2 with stage := some (statusLookup "resolved") })
      .ok db
    else .ok db

def pushApply (db : DB) : List (String × String × Bool) → Except GHError DB
  | [] => .ok db
  | e :: rest =>
    match pushApplyOne db e.1 e.2.1 e.2.2 with
    | .error err => .error err
    | .ok db2 => pushApply db2 rest

/-- `Push.dispatch`: set the actor, accumulate all commits' effects, return
early when nothing was referenced, else mutate every accumulated issue and
commit once at the end. -/
def Push_dispatch (db : DB) (data : PushPayload) : Except GHError DB :=
  if (pushAccumulate data.commits ((data.ref).getD "refs/heads/master")).isEmpty then
    .ok (set_roundup_user db data.pusherName)
  else
    match pushApply (set_roundup_user db data.pusherName)
        (pushAccumulate data.commits ((data.ref).getD "refs/heads/master")) with
    | .error e => .error e
    | .ok db2 => .ok (dbCommit db2)

/-! ### Derived views used by the theorems -/

/-- The (issue id, close intent) pairs of one commit-message scan, exactly
as `Push.handle_action` computes them (`close = verb is not None`, first
occurrence of an id wins), with the rendered comment text projected away. -/
def commitScanRefs (text : String) : List (String × Bool) :=
  (ISSUE_BPO_finditer text).foldl
    (fun acc vd =>
      if acc.any (fun e => e.1 == vd.2) then acc else acc ++ [(vd.2, vd.1.isSome)])
    []

/-- The per-commit comment blocks a push contributes to one issue, in
payload (oldest-first) commit order, each with its commit's close flag. -/
def commitBlocks (commits : List Commit) (ref : String) (id : String) :
    List (String × Bool) :=
  commits.filterMap
    (fun c => ((push_handle_action c ref).find? (fun e => e.1 == id)).map (fun e => e.2))

/-- Whether link id `l` currently resolves to a node whose number is `num`. -/
def matchesNum (db : DB) (num : Option String) (l : Nat) : Bool :=
  match lookupPr db l with
  | some nd => nd.number == num
  | none => false

/-- How many of an issue's attached links carry the number `num`. -/
def countLinked (db : DB) (issueId : String) (num : Option String) : Nat :=
  match lookupIssue db issueId with
  | none => 0
  | some iss => (iss.pullRequests.filter (matchesNum db num)).length

/-- Store well-formedness for the link table: distinct link ids, ids below
the fresh-id counter, and every attached link id below the counter too. -/
def DBwfLinks (db : DB) : Prop :=
  (db.prNodes.map (·.1)).Nodup ∧ (∀ p ∈ db.prNodes, p.1 < db.nextPr) ∧
    (∀ q ∈ db.issues, ∀ l ∈ q.2.pullRequests, l < db.nextPr)

instance (db : DB) : Decidable (DBwfLinks db) := by
  unfold DBwfLinks; infer_instance

/-- Message ids already stored stay below the fresh-id counter. -/
def msgsFresh (db : DB) : Prop := ∀ p ∈ db.msgs, p.1 < db.nextMsg

instance (db : DB) : Decidable (msgsFresh db) := by
  unfold msgsFresh; infer_instance

/-- The store facts the link-reconciliation paths never change: which issues
exist (and the issue-id counter), the message table, the user table and the
current user. -/
def SameIssueShape (db2 db : DB) : Prop :=
  db2.issues.map (·.1) = db.issues.map (·.1) ∧ db2.nextIssue = db.nextIssue ∧
    db2.msgs = db.msgs ∧ db2.nextMsg = db.nextMsg ∧ db2.users = db.users ∧
    db2.curUser = db.curUser

/-- The store facts the push path never changes: which issues exist and the
issue-id counter. -/
def SameIssues (db2 db : DB) : Prop :=
  db2.issues.map (·.1) = db.issues.map (·.1) ∧ db2.nextIssue = db.nextIssue

/-- The fixed URL pattern as claim C10 words it: the whole string is the
literal `https://github.com/python/cpython/pull/` followed by digits. -/
def fixedCPythonPullUrl (s : String) : Bool :=
  match matchLit "https://github.com/python/cpython/pull/".data s.data with
  | none => false
  | some rest => !rest.isEmpty && rest.all isDigitChar

/-- What `URL_RE` can actually find somewhere in a string: the two literal
runs with an arbitrary non-newline character in place of each unescaped dot,
followed by at least one digit. -/
def loosePullUrl (s : String) : Prop :=
  ∃ pre c ds post,
    s.data = pre ++ "https://github".data ++ [c] ++ "com/python/cpython/pull/".data
      ++ ds ++ post ∧ c ≠ '\n' ∧ ds ≠ [] ∧ ds.all isDigitChar

/-- The per-link body of `Event.handle_update`'s inner loop: update a link
node's title and status when its number matches `prid`, committing each
update (a named view of the lambda inside `handle_update`). -/
def updLinkStep (prid title status : Option String) (db : DB) (prId : Nat) : DB :=
  match lookupPr db prId with
  | none => db
  | some node =>
    if node.number == prid then
      dbCommit (prSet db prId { node with title := title, status := status })
    else db

/-! ## Theorems -/

/-- C2: `validate_webhook_secret` rejects with `Reject` when the shared
secret is unset; with a secret it accepts exactly when the header-supplied
signature equals `sha1=` followed by the HMAC-SHA1 hex digest of the raw
body under the secret, raising `Unauthorised` on any mismatch, including a
missing signature header (defaulted to the empty string).  The comparison
is `compare_digest`, functionally string equality; its constant-time
execution is a timing property outside this embedding. -/
theorem c2_webhook_secret (hmacSha1Hex : String → String → String)
    (body : String) (sigHeader : Option String) :
    validate_webhook_secret hmacSha1Hex none body sigHeader = .error .reject ∧
    ∀ key : String,
      (validate_webhook_secret hmacSha1Hex (some key) body sigHeader = .ok () ↔
        sigHeader.getD "" = "sha1=" ++ hmacSha1Hex key body) ∧
      (sigHeader.getD "" ≠ "sha1=" ++ hmacSha1Hex key body →
        validate_webhook_secret hmacSha1Hex (some key) body sigHeader =
          .error .unauthorised) ∧
      (sigHeader = none →
        validate_webhook_secret hmacSha1Hex (some key) body sigHeader =
          .error .unauthorised) := by
  refine ⟨rfl, fun key => ⟨?_, ?_, ?_⟩⟩
  · unfold validate_webhook_secret compare_digest
    constructor
    · intro h
      by_cases hc : ("sha1=" ++ hmacSha1Hex key body) = sigHeader.getD ""
      · exact hc.symm
      · simp [beq_eq_false_iff_ne.mpr hc] at h
    · intro h
      simp [h]
  · intro h
    unfold validate_webhook_secret compare_digest
    have hc : ¬ (("sha1=" ++ hmacSha1Hex key body) = sigHeader.getD "") :=
      fun hx => h hx.symm
    simp [beq_eq_false_iff_ne.mpr hc]
  · intro h
    subst h
    unfold validate_webhook_secret compare_digest
    have hne : ("sha1=" ++ hmacSha1Hex key body) ≠ "" := by
      intro hx
      have := congrArg String.data hx
      simp at this
    simp [Option.getD, beq_eq_false_iff_ne.mpr hne]

/-- Witness for C2 at a concrete digest, secret, body and (missing)
signature header. -/
theorem c2_webhook_secret_witness :
    validate_webhook_secret (fun _ _ => "d0") (some "k") "body" none =
      .error .unauthorised :=
  ((c2_webhook_secret (fun _ _ => "d0") "body" none).2 "k").2.2 rfl

/-- C8: the authenticator's checks run in the fixed order
method → content type → event-type header → HMAC signature; in particular a
delivery whose content type is missing or not exactly `application/json` is
rejected with `UnsupportedMediaType` for every secret, body and signature
header, i.e. before any signature verification. -/
theorem c8_auth_order (hmacSha1Hex : String → String → String)
    (method contentType eventHeader secretKey : Option String)
    (body : String) (sigHeader : Option String) :
    (method ≠ some "POST" →
      webhook_auth hmacSha1Hex method contentType eventHeader secretKey body sigHeader =
        .error .methodNotAllowed) ∧
    (method = some "POST" → contentType ≠ some "application/json" →
      webhook_auth hmacSha1Hex method contentType eventHeader secretKey body sigHeader =
        .error .unsupportedMediaType) ∧
    (method = some "POST" → contentType = some "application/json" → eventHeader = none →
      webhook_auth hmacSha1Hex method contentType eventHeader secretKey body sigHeader =
        .error .reject) ∧
    (method = some "POST" → contentType = some "application/json" →
      ∀ e, eventHeader = some e →
        webhook_auth hmacSha1Hex method contentType eventHeader secretKey body sigHeader =
          validate_webhook_secret hmacSha1Hex secretKey body sigHeader) := by
  refine ⟨?_, ?_, ?_, ?_⟩
  · intro h
    have hv : verify_request method contentType eventHeader = .error .methodNotAllowed := by
      unfold verify_request
      simp [beq_eq_false_iff_ne.mpr h]
    unfold webhook_auth
    rw [hv]
    rfl
  · intro h1 h2
    subst h1
    have hv : verify_request (some "POST") contentType eventHeader =
        .error .unsupportedMediaType := by
      unfold verify_request
      simp [beq_eq_false_iff_ne.mpr h2]
    unfold webhook_auth
    rw [hv]
    rfl
  · intro h1 h2 h3
    subst h1; subst h2; subst h3
    unfold webhook_auth
    rfl
  · intro h1 h2 e h3
    subst h1; subst h2; subst h3
    unfold webhook_auth
    rfl

/-- Witness for C8: with method POST but a missing content type, the
delivery is rejected with `UnsupportedMediaType` even though a secret and a
signature header are present. -/
theorem c8_auth_order_witness :
    webhook_auth (fun _ _ => "d0") (some "POST") none (some "push") (some "k")
        "body" (some "sig") = .error .unsupportedMediaType :=
  (c8_auth_order (fun _ _ => "d0") (some "POST") none (some "push") (some "k")
      "body" (some "sig")).2.1 rfl (by simp)

/-- C6 (code bug): `Push.dispatch` performs no existence check before
`db.issue.get(id, 'messages')`; a push whose commits reference issue 1
(existing) and issue 999 (missing) raises `IndexError` out of the handler —
the whole delivery is aborted and `commit()` is never reached — instead of
skipping the unresolved id and committing the rest, as the spec requires. -/
theorem c6_push_missing_issue_raises :
    Push_dispatch { issues := [("1", {})] }
        { commits := [{ message := "bug 1 and bug 999" }] } =
      .error .indexError := by rfl

/-- C1 counterexample: for a single-commit push referencing one issue, the
stored message content is a leading newline followed by the comment block —
`(u'' + u'\n' + msg)` on the first accumulation — which differs from the
newline-joined concatenation of the blocks that the claim states. -/
theorem c1_counterexample :
    (match Push_dispatch { issues := [("1", {})] }
        { commits := [{ id := "deadbeef", message := "closes #1", url := "http://u",
                        committerName := "Ann" }] } with
     | .ok db1 => (db1.msgs.find? (fun p => p.1 == 0)).map (·.2.content)
     | .error _ => none)
      = some ("\n" ++ COMMENT_TEMPLATE "deadbeef" "Ann" "master" "closes #1" "http://u") ∧
    "\n" ++ COMMENT_TEMPLATE "deadbeef" "Ann" "master" "closes #1" "http://u" ≠
      String.intercalate "\n"
        [COMMENT_TEMPLATE "deadbeef" "Ann" "master" "closes #1" "http://u"] := by
  exact ⟨by decide, by decide⟩

/-- C3 counterexample: scanning the commit message `"fix #123"` yields issue
123 with close intent `true`, although no close verb (close/closes/closed/
closing) occurs anywhere in the text: the verb group's trailing empty
alternative participates whenever the marker is preceded by whitespace at a
word boundary, and `close = verb is not None` is then true. -/
theorem c3_counterexample :
    commitScanRefs "fix #123" = [("123", true)] ∧
    (["close", "closes", "closed", "closing"].all
      (fun v => !containsCI v.data "fix #123".data)) = true := by
  exact ⟨by decide, by decide⟩

/-- C5 counterexample: a `pull_request edited` event whose PR title is the
empty string is dropped by `handle_update`'s `if not title: return` guard,
so an issue referenced by the PR body with no existing link gets no link at
all — the store is returned unchanged. -/
theorem c5_counterexample :
    PullRequest_dispatch none
        { action := some "edited",
          pullRequest := some { number := some 7, title := "", body := "bpo 1",
                                state := "open" } }
        { issues := [("1", {})] } =
      .ok { issues := [("1", {})] } := by rfl

/-- C7 counterexample: no single scan of the code yields the claimed pair
`{123: no-intent, 45: close-intent}` for `"bpo123 bpo123 closes bug 45"`:
the commit-message scanner (`ISSUE_BPO_RE`) yields only issue 45 (close),
and the pull-request/comment extractor (`ISSUE_GH_RE`) yields only 123. -/
theorem c7_counterexample :
    commitScanRefs "bpo123 bpo123 closes bug 45" = [("45", true)] ∧
    dedupFirst (ISSUE_GH_findall "bpo123 bpo123 closes bug 45") = ["123"] := by
  exact ⟨by decide, by decide⟩

/-- C9 counterexample: with `CREATE_ISSUE` set, a `pull_request` payload
whose action is `"closed"` (not a newly-opened PR) and whose text contains
no issue reference still creates a brand-new tracker issue (id 9 here),
because `Event.dispatch` never consults the action in its auto-create
branch. -/
theorem c9_counterexample :
    lookupIssue ({ nextIssue := 9 } : DB) "9" = none ∧
    (match PullRequest_dispatch (some "1")
        { action := some "closed",
          pullRequest := some { number := some 7, title := "T", body := "no refs",
                                state := "closed" } }
        ({ nextIssue := 9 } : DB) with
     | .ok db1 => (lookupIssue db1 "9").isSome
     | .error _ => false) = true := by
  exact ⟨rfl, rfl⟩

/-! ### Scanner lemmas (shared by the extractor claims) -/

theorem afterVerb_verb_eq {v : String} {r : List Char} {w : Option String}
    {ds rest : List Char} (h : afterVerb v r = some (w, ds, rest)) : w = some v := by
  unfold afterVerb at h
  split at h
  · exact absurd h (by simp)
  · split at h
    · simp only [Option.some.injEq, Prod.mk.injEq] at h
      exact h.1.symm
    · exact absurd h (by simp)

theorem bpoMatchAt_verb_range {prev : Option Char} {rest : List Char} {v : Option String}
    {ds r : List Char} (h : bpoMatchAt prev rest = some (v, ds, r)) :
    v = none ∨ v = some "" ∨ v = some "close" ∨ v = some "closes" ∨
      v = some "closed" ∨ v = some "closing" := by
  unfold bpoMatchAt at h
  rcases (Option.orElse_eq_some _ _ _).mp h with h | ⟨-, h⟩
  · split at h
    · rcases (Option.orElse_eq_some _ _ _).mp h with h | ⟨-, h⟩
      · split at h
        · rcases (Option.orElse_eq_some _ _ _).mp h with h | ⟨-, h⟩
          · split at h
            · split at h
              · right; right; right; left; exact afterVerb_verb_eq h
              · split at h
                · right; right; right; right; left; exact afterVerb_verb_eq h
                · exact absurd h (by simp)
            · exact absurd h (by simp)
          · right; right; left; exact afterVerb_verb_eq h
        · exact absurd h (by simp)
      · rcases (Option.orElse_eq_some _ _ _).mp h with h | ⟨-, h⟩
        · split at h
          · right; right; right; right; right; exact afterVerb_verb_eq h
          · exact absurd h (by simp)
        · right; left; exact afterVerb_verb_eq h
    · exact absurd h (by simp)
  · rw [Option.map_eq_some'] at h
    obtain ⟨p, -, hp⟩ := h
    left
    simpa using congrArg (·.1) hp.symm

theorem bpoFindAux_verb_range :
    ∀ (fuel : Nat) (prev : Option Char) (l : List Char) (e : Option String × String),
      e ∈ bpoFindAux fuel prev l →
      e.1 = none ∨ e.1 = some "" ∨ e.1 = some "close" ∨ e.1 = some "closes" ∨
        e.1 = some "closed" ∨ e.1 = some "closing" := by
  intro fuel
  induction fuel with
  | zero => intro prev l e he; simp [bpoFindAux] at he
  | succ n ih =>
    intro prev l e he
    cases l with
    | nil => simp [bpoFindAux] at he
    | cons c cs =>
      rw [bpoFindAux] at he
      split at he
      · rename_i v ds rest hm
        rcases List.mem_cons.mp he with he | he
        · subst he; exact bpoMatchAt_verb_range hm
        · exact ih _ _ _ he
      · exact ih _ _ _ he

theorem issue_bpo_verb_range (s : String) (e : Option String × String)
    (he : e ∈ ISSUE_BPO_finditer s) :
    e.1 = none ∨ e.1 = some "" ∨ e.1 = some "close" ∨ e.1 = some "closes" ∨
      e.1 = some "closed" ∨ e.1 = some "closing" :=
  bpoFindAux_verb_range _ _ _ _ he

theorem scan_fold_find? (l : List (Option String × String)) (acc : List (String × Bool))
    (id : String) :
    ((l.foldl
        (fun acc vd =>
          if acc.any (fun e => e.1 == vd.2) then acc else acc ++ [(vd.2, vd.1.isSome)])
        acc).find? (fun e => e.1 == id)) =
      ((acc.find? (fun e => e.1 == id)).or
        (((l.map (fun vd => (vd.2, vd.1.isSome))).find? (fun e => e.1 == id)))) := by
  induction l generalizing acc with
  | nil => simp
  | cons vd rest ih =>
    simp only [List.foldl_cons, List.map_cons]
    by_cases hmem : acc.any (fun e => e.1 == vd.2)
    · rw [if_pos hmem, ih acc]
      by_cases hid : vd.2 == id
      · have hsame : (fun (e : String × Bool) => e.1 == id) = fun e => e.1 == vd.2 := by
          funext e; rw [show vd.2 = id from eq_of_beq hid]
        have hs : (acc.find? (fun e => e.1 == id)).isSome := by
          rw [hsame, List.find?_isSome]
          exact List.any_eq_true.mp hmem
        obtain ⟨x, hx⟩ := Option.isSome_iff_exists.mp hs
        rw [hx]
        simp [Option.or]
      · rw [List.find?_cons_of_neg]
        simpa using hid
    · rw [if_neg hmem, ih (acc ++ [(vd.2, vd.1.isSome)]), List.find?_append, Option.or_assoc]
      congr 1
      by_cases hid : vd.2 == id
      · rw [List.find?_cons_of_pos _ (by simpa using hid)]
        rw [List.find?_cons_of_pos _ (by simpa using hid)]
        simp [Option.or]
      · rw [List.find?_cons_of_neg _ (by simpa using hid)]
        rw [List.find?_cons_of_neg _ (by simpa using hid)]
        simp

theorem scan_fold_nodup (l : List (Option String × String)) (acc : List (String × Bool))
    (h : (acc.map (·.1)).Nodup) :
    (((l.foldl
        (fun acc vd =>
          if acc.any (fun e => e.1 == vd.2) then acc else acc ++ [(vd.2, vd.1.isSome)])
        acc)).map (·.1)).Nodup := by
  induction l generalizing acc with
  | nil => exact h
  | cons vd rest ih =>
    simp only [List.foldl_cons]
    by_cases hmem : acc.any (fun e => e.1 == vd.2)
    · rw [if_pos hmem]; exact ih acc h
    · rw [if_neg hmem]
      apply ih
      simp only [List.map_append, List.map_cons, List.map_nil]
      rw [List.nodup_append]
      refine ⟨h, by simp, ?_⟩
      intro a ha hb
      simp only [List.mem_singleton] at hb
      subst hb
      apply hmem
      rw [List.any_eq_true]
      obtain ⟨e, he, heq⟩ := List.mem_map.mp ha
      exact ⟨e, he, by simp [heq]⟩

theorem commitScanRefs_nodup (t : String) : ((commitScanRefs t).map (·.1)).Nodup :=
  scan_fold_nodup _ [] (by simp)

theorem commitScanRefs_find? (t : String) (id : String) :
    (commitScanRefs t).find? (fun e => e.1 == id) =
      ((ISSUE_BPO_finditer t).map (fun vd => (vd.2, vd.1.isSome))).find?
        (fun e => e.1 == id) := by
  have h := scan_fold_find? (ISSUE_BPO_finditer t) [] id
  rw [List.find?_nil, Option.none_or] at h
  exact h

theorem find?_key_of_mem {α β : Type} [BEq α] [LawfulBEq α] {l : List (α × β)}
    {e : α × β} (hN : (l.map (·.1)).Nodup) (he : e ∈ l) :
    l.find? (fun x => x.1 == e.1) = some e := by
  induction l with
  | nil => simp at he
  | cons a rest ih =>
    simp only [List.map_cons, List.nodup_cons] at hN
    rcases List.mem_cons.mp he with he | he
    · subst he
      exact List.find?_cons_of_pos _ (by simp)
    · by_cases hba : (a.1 == e.1) = true
      · exfalso
        apply hN.1
        have hae : a.1 = e.1 := eq_of_beq hba
        rw [hae]
        exact List.mem_map.mpr ⟨e, he, rfl⟩
      · have hba2 : ¬((fun (x : α × β) => x.1 == e.1) a) = true := hba
        rw [show List.find? (fun x => x.1 == e.1) (a :: rest) =
              List.find? (fun x => x.1 == e.1) rest from
            List.find?_cons_of_neg rest hba2]
        exact ih hN.2 he

/-- C7 (amended): within one scan, duplicate issue ids collapse to a single
reference and the entry kept for each id is the first raw match's (id,
intent) pair — later duplicate matches are ignored; re-scanning is the same
pure function, so it returns the same references.  But no single scan mixes
the two grammars: on `"bpo123 bpo123 closes bug 45"` the commit-message
scanner yields exactly `{45: close-intent}` and the pull-request/comment
extractor yields exactly `{123}` (no intent), and only the two scans
together produce the pair the spec's example states. -/
theorem c7_extractor_amended :
    (∀ t : String, ((commitScanRefs t).map (·.1)).Nodup) ∧
    (∀ t id : String,
      (commitScanRefs t).find? (fun e => e.1 == id) =
        ((ISSUE_BPO_finditer t).map (fun vd => (vd.2, vd.1.isSome))).find?
          (fun e => e.1 == id)) ∧
    commitScanRefs "bpo123 bpo123 closes bug 45" = [("45", true)] ∧
    dedupFirst (ISSUE_GH_findall "bpo123 bpo123 closes bug 45") = ["123"] :=
  ⟨commitScanRefs_nodup, commitScanRefs_find?, by decide, by decide⟩

/-- C3 (amended): a reference extracted from a commit message carries close
intent exactly when the verb group of `ISSUE_BPO_RE` participated in its
(first) match, and the captured verb is then one of close/closes/closed/
closing (case-insensitively) — or the empty string, the pattern's trailing
empty alternative, which matches whenever the marker is preceded by
whitespace at a word boundary.  The bare `bpo`-pattern extractor returns
ids only and so never yields close intent. -/
theorem c3_close_intent_amended (t : String) (e : String × Bool)
    (he : e ∈ commitScanRefs t) :
    ∃ v : Option String, (v, e.1) ∈ ISSUE_BPO_finditer t ∧ e.2 = v.isSome ∧
      (v = none ∨ v = some "" ∨ v = some "close" ∨ v = some "closes" ∨
        v = some "closed" ∨ v = some "closing") := by
  have h1 : (commitScanRefs t).find? (fun x => x.1 == e.1) = some e :=
    find?_key_of_mem (commitScanRefs_nodup t) he
  rw [commitScanRefs_find?] at h1
  have h2 := List.mem_of_find?_eq_some h1
  obtain ⟨vd, hvd, heq⟩ := List.mem_map.mp h2
  refine ⟨vd.1, ?_, ?_, ?_⟩
  · have : e.1 = vd.2 := by rw [← heq]
    rw [this]
    exact hvd
  · rw [← heq]
  · exact issue_bpo_verb_range t vd hvd

/-- Witness for C3 (amended) at the commit message `"fix #123"`. -/
theorem c3_close_intent_amended_witness :
    ("123", true) ∈ commitScanRefs "fix #123" ∧
    (∃ v : Option String, (v, "123") ∈ ISSUE_BPO_finditer "fix #123" ∧
      (true : Bool) = v.isSome ∧
      (v = none ∨ v = some "" ∨ v = some "close" ∨ v = some "closes" ∨
        v = some "closed" ∨ v = some "closing")) :=
  ⟨by decide, c3_close_intent_amended "fix #123" ("123", true) (by decide)⟩

/-! ### Store-shape preservation lemmas -/

theorem sameIssueShape_refl (db : DB) : SameIssueShape db db :=
  ⟨rfl, rfl, rfl, rfl, rfl, rfl⟩

theorem sameIssueShape_trans {a b c : DB} (h1 : SameIssueShape a b)
    (h2 : SameIssueShape b c) : SameIssueShape a c :=
  ⟨h1.1.trans h2.1, h1.2.1.trans h2.2.1, h1.2.2.1.trans h2.2.2.1,
    h1.2.2.2.1.trans h2.2.2.2.1, h1.2.2.2.2.1.trans h2.2.2.2.2.1,
    h1.2.2.2.2.2.trans h2.2.2.2.2.2⟩

theorem sameIssues_refl (db : DB) : SameIssues db db := ⟨rfl, rfl⟩

theorem sameIssues_trans {a b c : DB} (h1 : SameIssues a b) (h2 : SameIssues b c) :
    SameIssues a c := ⟨h1.1.trans h2.1, h1.2.trans h2.2⟩

theorem set_roundup_user_state (db : DB) (l : String) :
    (set_roundup_user db l).issues = db.issues ∧
    (set_roundup_user db l).prNodes = db.prNodes ∧
    (set_roundup_user db l).nextPr = db.nextPr ∧
    (set_roundup_user db l).msgs = db.msgs ∧
    (set_roundup_user db l).nextMsg = db.nextMsg ∧
    (set_roundup_user db l).nextIssue = db.nextIssue ∧
    (set_roundup_user db l).users = db.users ∧
    (set_roundup_user db l).commits = db.commits := by
  unfold set_roundup_user
  split
  · exact ⟨rfl, rfl, rfl, rfl, rfl, rfl, rfl, rfl⟩
  · exact ⟨rfl, rfl, rfl, rfl, rfl, rfl, rfl, rfl⟩

theorem issueSet_keys (db : DB) (id : String) (iss : Issue) :
    (issueSet db id iss).issues.map (·.1) = db.issues.map (·.1) := by
  unfold issueSet
  rw [List.map_map]
  apply List.map_congr_left
  intro p _
  by_cases h : (p.1 == id) = true
  · rw [Function.comp_apply, if_pos h]
  · rw [Function.comp_apply, if_neg h]

theorem setIssueField_shape (db : DB) (id : String) (f : Issue → Issue) :
    SameIssues (setIssueField db id f) db := by
  unfold setIssueField
  cases h : lookupIssue db id with
  | none => exact sameIssues_refl db
  | some i2 => exact ⟨issueSet_keys db id (f i2), rfl⟩

theorem handle_create_body_shape (prid t s : Option String) (db : DB) (a : String) :
    SameIssueShape (handle_create_body prid t s db a) db := by
  unfold handle_create_body
  cases hl : lookupIssue db a with
  | none => exact sameIssueShape_refl db
  | some iss =>
    show SameIssueShape
      (if (iss.pullRequests.any fun p => (prFilterNumber db prid).contains p) then db
       else
         dbCommit (issueSet (prCreate db prid (some (t.getD "")) (some (s.getD ""))).1 a
           { iss with pullRequests := iss.pullRequests ++
               [(prCreate db prid (some (t.getD "")) (some (s.getD ""))).2] })) db
    split
    · exact sameIssueShape_refl db
    · exact ⟨issueSet_keys _ _ _, rfl, rfl, rfl, rfl, rfl⟩

theorem handle_create_shape (db : DB) (prid : Option String) (t s : Option String)
    (ids : List String) : SameIssueShape (handle_create db prid t s ids) db := by
  unfold handle_create
  split
  · rename_i hguard
    clear hguard
    induction ids generalizing db with
    | nil => exact sameIssueShape_refl db
    | cons a l ih =>
      rw [List.foldl_cons]
      exact sameIssueShape_trans (ih _) (handle_create_body_shape prid t s db a)
  · exact sameIssueShape_refl db

theorem handle_update_shape (db : DB) (prid : Option String) (t s : Option String)
    (ids : List String) : SameIssueShape (handle_update db prid t s ids) db := by
  unfold handle_update
  split
  · exact sameIssueShape_refl db
  · split
    · rename_i hguard
      clear hguard
      induction ids generalizing db with
      | nil => exact sameIssueShape_refl db
      | cons a l ih =>
        rw [List.foldl_cons]
        refine sameIssueShape_trans (ih _) ?_
        cases hl : lookupIssue db a with
        | none => simp only [hl]; exact sameIssueShape_refl db
        | some iss =>
          simp only [hl]
          split
          · -- update every matching attached link
            have : ∀ (prs : List Nat) (db2 : DB),
                SameIssueShape
                  (prs.foldl
                    (fun db prId =>
                      match lookupPr db prId with
                      | none => db
                      | some node =>
                        if node.number == prid then
                          dbCommit (prSet db prId { node with title := t, status := s })
                        else db)
                    db2) db2 := by
              intro prs
              induction prs with
              | nil => intro db2; exact sameIssueShape_refl db2
              | cons p l2 ih2 =>
                intro db2
                rw [List.foldl_cons]
                refine sameIssueShape_trans (ih2 _) ?_
                cases hp : lookupPr db2 p with
                | none => simp only [hp]; exact sameIssueShape_refl db2
                | some node =>
                  simp only [hp]
                  split
                  · exact ⟨rfl, rfl, rfl, rfl, rfl, rfl⟩
                  · exact sameIssueShape_refl db2
            exact this _ _
          · exact handle_create_shape _ _ _ _ _
    · exact sameIssueShape_refl db

theorem PR_handle_action_ok (db : DB) (a : String) (p t s : Option String)
    (i : List String) :
    ∃ db2, PR_handle_action db a p t s i = .ok db2 ∧ SameIssueShape db2 db := by
  unfold PR_handle_action
  split
  · exact ⟨_, rfl, handle_create_shape db p t s i⟩
  · split
    · exact ⟨_, rfl, handle_update_shape db p t s i⟩
    · exact ⟨db, rfl, sameIssueShape_refl db⟩

theorem IC_handle_action_ok (db : DB) (a : String) (p t s : Option String)
    (i : List String) :
    ∃ db2, IC_handle_action db a p t s i = .ok db2 ∧ SameIssueShape db2 db := by
  unfold IC_handle_action
  split
  · exact ⟨_, rfl, handle_create_shape db p t s i⟩
  · exact ⟨db, rfl, sameIssueShape_refl db⟩

theorem pushApplyOne_shape {db db' : DB} {id m : String} {c : Bool}
    (h : pushApplyOne db id m c = .ok db') : SameIssues db' db := by
  unfold pushApplyOne at h
  cases hl : lookupIssue db id with
  | none => rw [hl] at h; exact absurd h (by simp)
  | some iss =>
    simp only [hl, msgCreate] at h
    split at h
    · -- close branch: message append then three field sets
      injection h with h
      subst h
      refine sameIssues_trans (setIssueField_shape _ _ _) ?_
      refine sameIssues_trans (setIssueField_shape _ _ _) ?_
      refine sameIssues_trans (setIssueField_shape _ _ _) ?_
      exact ⟨issueSet_keys _ _ _, rfl⟩
    · injection h with h
      subst h
      exact ⟨issueSet_keys _ _ _, rfl⟩

theorem pushApply_shape :
    ∀ (l : List (String × String × Bool)) (db db' : DB),
      pushApply db l = .ok db' → SameIssues db' db := by
  intro l
  induction l with
  | nil =>
    intro db db' h
    unfold pushApply at h
    injection h with h
    subst h
    exact sameIssues_refl db
  | cons e rest ih =>
    intro db db' h
    unfold pushApply at h
    cases ho : pushApplyOne db e.1 e.2.1 e.2.2 with
    | error err => rw [ho] at h; exact absurd h (by simp)
    | ok db2 =>
      rw [ho] at h
      exact sameIssues_trans (ih db2 db' h) (pushApplyOne_shape ho)

/-! ### Association-list update and lookup lemmas -/

theorem find?_update_self {α β : Type} [BEq α] [LawfulBEq α] (l : List (α × β)) (k : α) (v : β) :
    (l.map (fun p => if p.1 == k then (p.1, v) else p)).find? (fun p => p.1 == k) =
      (l.find? (fun p => p.1 == k)).map (fun _ => (k, v)) := by
  induction l with
  | nil => rfl
  | cons a t ih =>
    simp only [List.map_cons, List.find?_cons]
    cases ha : (a.1 == k) with
    | true =>
      simp only [ha, if_true, List.find?_cons, ha, Option.map_some']
      rw [eq_of_beq ha]
    | false =>
      simp only [ha, if_false, Bool.false_eq_true, ite_false, List.find?_cons, ha]
      exact ih

theorem find?_update_ne {α β : Type} [BEq α] [LawfulBEq α] (l : List (α × β)) (k j : α) (v : β)
    (hjk : j ≠ k) :
    (l.map (fun p => if p.1 == k then (p.1, v) else p)).find? (fun p => p.1 == j) =
      l.find? (fun p => p.1 == j) := by
  induction l with
  | nil => rfl
  | cons a t ih =>
    simp only [List.map_cons, List.find?_cons]
    cases ha : (a.1 == k) with
    | true =>
      have haj : (a.1 == j) = false := by
        rw [eq_of_beq ha]
        exact beq_eq_false_iff_ne.mpr (Ne.symm hjk)
      simp only [ha, if_true, List.find?_cons, haj]
      exact ih
    | false =>
      simp only [ha, if_false, Bool.false_eq_true, ite_false, List.find?_cons]
      cases hj : (a.1 == j) with
      | true => rfl
      | false => exact ih

theorem lookupIssue_issueSet_self (db : DB) (id : String) (v : Issue) :
    lookupIssue (issueSet db id v) id = (lookupIssue db id).map (fun _ => v) := by
  unfold lookupIssue issueSet
  simp only [find?_update_self, Option.map_map]
  rfl

theorem lookupIssue_issueSet_ne (db : DB) {id j : String} (v : Issue) (hne : j ≠ id) :
    lookupIssue (issueSet db id v) j = lookupIssue db j := by
  unfold lookupIssue issueSet
  rw [find?_update_ne _ _ _ _ hne]

theorem lookupIssue_mem {db : DB} {a : String} {iss : Issue}
    (h : lookupIssue db a = some iss) : (a, iss) ∈ db.issues := by
  unfold lookupIssue at h
  obtain ⟨e, he, hmape⟩ := Option.map_eq_some'.mp h
  have hm := List.mem_of_find?_eq_some he
  have hp := List.find?_some he
  have : e = (a, iss) := by
    cases e
    simp only at hp hmape
    simp only [Prod.mk.injEq]
    exact ⟨eq_of_beq hp, hmape⟩
  rw [← this]
  exact hm

theorem lookupPr_prCreate_old (db : DB) (num t s : Option String) {l : Nat}
    (hl : l ≠ db.nextPr) :
    lookupPr (prCreate db num t s).1 l = lookupPr db l := by
  show ((db.prNodes ++ [(db.nextPr, (⟨num, t, s⟩ : PRNode))]).find?
      (fun p => p.1 == l)).map (·.2) =
    (db.prNodes.find? (fun p => p.1 == l)).map (·.2)
  rw [List.find?_append]
  have h2 : List.find? (fun (p : Nat × PRNode) => p.1 == l)
      [(db.nextPr, (⟨num, t, s⟩ : PRNode))] = none := by
    simp only [List.find?_cons, show (db.nextPr == l) = false from
      beq_eq_false_iff_ne.mpr (Ne.symm hl)]
    rfl
  rw [h2, Option.or_none]

theorem lookupPr_prCreate_new (db : DB) (num t s : Option String)
    (hb : ∀ p ∈ db.prNodes, p.1 < db.nextPr) :
    lookupPr (prCreate db num t s).1 db.nextPr = some ⟨num, t, s⟩ := by
  show ((db.prNodes ++ [(db.nextPr, (⟨num, t, s⟩ : PRNode))]).find?
      (fun p => p.1 == db.nextPr)).map (·.2) = some ⟨num, t, s⟩
  rw [List.find?_append]
  have h1 : List.find? (fun (p : Nat × PRNode) => p.1 == db.nextPr) db.prNodes = none := by
    rw [List.find?_eq_none]
    intro x hx hq
    exact absurd (eq_of_beq hq ▸ hb x hx) (lt_irrefl _)
  rw [h1]
  simp only [Option.none_or, List.find?_cons, beq_self_eq_true]
  rfl

theorem countLinked_congr {db2 db : DB} {j : String} {num : Option String}
    (hlook : lookupIssue db2 j = lookupIssue db j)
    (hmatch : ∀ iss, lookupIssue db j = some iss →
      ∀ l ∈ iss.pullRequests, matchesNum db2 num l = matchesNum db num l) :
    countLinked db2 j num = countLinked db j num := by
  unfold countLinked
  rw [hlook]
  cases hli : lookupIssue db j with
  | none => rfl
  | some iss =>
    show (List.filter (matchesNum db2 num) iss.pullRequests).length =
      (List.filter (matchesNum db num) iss.pullRequests).length
    rw [List.filter_congr (hmatch iss hli)]

theorem dedupFirst_nodup (l : List String) : (dedupFirst l).Nodup := by
  unfold dedupFirst
  have : ∀ (l : List String) (acc : List String), acc.Nodup →
      (l.foldl (fun acc x => if acc.contains x then acc else acc ++ [x]) acc).Nodup := by
    intro l
    induction l with
    | nil => intro acc h; exact h
    | cons a t ih =>
      intro acc h
      rw [List.foldl_cons]
      by_cases hc : (acc.contains a) = true
      · rw [if_pos hc]; exact ih acc h
      · rw [if_neg hc]
        apply ih
        rw [List.nodup_append]
        refine ⟨h, by simp, ?_⟩
        intro x hx hxa
        simp only [List.mem_singleton] at hxa
        subst hxa
        exact hc (by simpa using hx)
  exact this l [] (by simp)

theorem issueFilterIds_congr {db2 db : DB} (ids : List String)
    (h : db2.issues.map (·.1) = db.issues.map (·.1)) :
    issueFilterIds db2 ids = issueFilterIds db ids := by
  unfold issueFilterIds
  have hgen : ∀ (l : List (String × Issue)),
      (l.filter (fun p => ids.contains p.1)).map (·.1) =
        (l.map (·.1)).filter (fun k => ids.contains k) := by
    intro l
    induction l with
    | nil => rfl
    | cons a t ih =>
      simp only [List.filter_cons, List.map_cons]
      cases hc : ids.contains a.1 with
      | true => simp only [hc, if_true, List.map_cons, ih]
      | false => simp only [hc, Bool.false_eq_true, if_false, ite_false, ih]
  rw [hgen, hgen, h]

theorem contains_prFilter (db : DB) (num : Option String) (p : Nat)
    (hN : (db.prNodes.map (·.1)).Nodup) :
    (prFilterNumber db num).contains p = matchesNum db num p := by
  rw [Bool.eq_iff_iff]
  constructor
  · intro h
    have hmem : p ∈ prFilterNumber db num := by simpa using h
    unfold prFilterNumber at hmem
    obtain ⟨q, hq, hq1⟩ := List.mem_map.mp hmem
    have hq2 := List.mem_filter.mp hq
    have hfind : db.prNodes.find? (fun x => x.1 == q.1) = some q := find?_key_of_mem hN hq2.1
    rw [hq1] at hfind
    unfold matchesNum lookupPr
    rw [hfind]
    simpa using hq2.2
  · intro h
    unfold matchesNum at h
    cases hl : lookupPr db p with
    | none => rw [hl] at h; simp at h
    | some nd =>
      simp only [hl] at h
      unfold lookupPr at hl
      obtain ⟨e, he, he2⟩ := Option.map_eq_some'.mp hl
      have hm := List.mem_of_find?_eq_some he
      have hp := List.find?_some he
      have : p ∈ prFilterNumber db num := by
        unfold prFilterNumber
        exact List.mem_map.mpr ⟨e, List.mem_filter.mpr ⟨hm, by rw [he2]; exact h⟩,
          eq_of_beq hp⟩
      simpa using this

theorem skipCond_true_iff {db : DB} {prid : Option String} {a : String} {iss : Issue}
    (hl : lookupIssue db a = some iss) (hNpr : (db.prNodes.map (·.1)).Nodup) :
    (iss.pullRequests.any fun p => (prFilterNumber db prid).contains p) = true ↔
      countLinked db a prid ≠ 0 := by
  constructor
  · intro h
    obtain ⟨p, hp, hcp⟩ := List.any_eq_true.mp h
    rw [contains_prFilter db prid p hNpr] at hcp
    unfold countLinked
    simp only [hl]
    intro hlen
    rw [List.length_eq_zero] at hlen
    have : p ∈ ([] : List Nat) := hlen ▸ List.mem_filter.mpr ⟨hp, hcp⟩
    simp at this
  · intro h
    unfold countLinked at h
    simp only [hl] at h
    have hne : (iss.pullRequests.filter (matchesNum db prid)) ≠ [] := by
      intro hnil
      exact h (by rw [hnil]; rfl)
    obtain ⟨p, hp⟩ := List.exists_mem_of_ne_nil _ hne
    have hm := List.mem_filter.mp hp
    exact List.any_eq_true.mpr
      ⟨p, hm.1, by rw [contains_prFilter db prid p hNpr]; exact hm.2⟩

theorem matchesNum_eq_of_lookup_eq {db2 db : DB} {num : Option String} {l : Nat}
    (h : lookupPr db2 l = lookupPr db l) :
    matchesNum db2 num l = matchesNum db num l := by
  unfold matchesNum
  rw [h]

/-- What one full run of `handle_create`'s loop does, link-wise: well-formed
stores stay well-formed, untargeted issues are untouched, an issue with no
same-number link gains exactly one, and an issue that already has one is
skipped entirely. -/
theorem handle_create_fold_spec (prid tit st : Option String) :
    ∀ (ids : List String) (db : DB), ids.Nodup →
      (∀ id ∈ ids, (lookupIssue db id).isSome) → DBwfLinks db →
      DBwfLinks (ids.foldl (handle_create_body prid tit st) db) ∧
      (∀ j, j ∉ ids →
        lookupIssue (ids.foldl (handle_create_body prid tit st) db) j = lookupIssue db j) ∧
      (∀ j, j ∉ ids →
        countLinked (ids.foldl (handle_create_body prid tit st) db) j prid =
          countLinked db j prid) ∧
      (∀ id ∈ ids,
        countLinked (ids.foldl (handle_create_body prid tit st) db) id prid =
          if countLinked db id prid = 0 then 1 else countLinked db id prid) ∧
      (∀ id ∈ ids, countLinked db id prid ≠ 0 →
        lookupIssue (ids.foldl (handle_create_body prid tit st) db) id = lookupIssue db id) := by
  intro ids
  induction ids with
  | nil =>
    intro db _ _ hWF
    exact ⟨hWF, fun j _ => rfl, fun j _ => rfl, by simp, by simp⟩
  | cons a t ih =>
    intro db hN hEx hWF
    have ha : a ∉ t := (List.nodup_cons.mp hN).1
    have hNt : t.Nodup := (List.nodup_cons.mp hN).2
    rw [List.foldl_cons]
    have hExa : (lookupIssue db a).isSome := hEx a (List.mem_cons_self a t)
    cases hl : lookupIssue db a with
    | none => rw [hl] at hExa; simp at hExa
    | some iss =>
      by_cases hskip : (iss.pullRequests.any fun p => (prFilterNumber db prid).contains p) = true
      · -- the issue already carries a same-number link: the step is a no-op
        have hstep : handle_create_body prid tit st db a = db := by
          unfold handle_create_body
          simp only [hl]
          rw [if_pos hskip]
        rw [hstep]
        have hcne : countLinked db a prid ≠ 0 := (skipCond_true_iff hl hWF.1).mp hskip
        obtain ⟨iWF, iframe, icount, iids, istable⟩ :=
          ih db hNt (fun id hid => hEx id (List.mem_cons_of_mem a hid)) hWF
        refine ⟨iWF, ?_, ?_, ?_, ?_⟩
        · intro j hj
          exact iframe j (fun hm => hj (List.mem_cons_of_mem a hm))
        · intro j hj
          exact icount j (fun hm => hj (List.mem_cons_of_mem a hm))
        · intro id hid
          rcases List.mem_cons.mp hid with rfl | hid2
          · rw [icount id ha, if_neg hcne]
          · exact iids id hid2
        · intro id hid hcid
          rcases List.mem_cons.mp hid with rfl | hid2
          · exact iframe id ha
          · exact istable id hid2 hcid
      · -- no same-number link yet: one is created and attached
        have hc0 : countLinked db a prid = 0 := by
          by_contra hc
          exact hskip ((skipCond_true_iff hl hWF.1).mpr hc)
        have hstep : handle_create_body prid tit st db a =
            dbCommit (issueSet (prCreate db prid (some (tit.getD "")) (some (st.getD ""))).1
              a { iss with pullRequests := iss.pullRequests ++ [db.nextPr] }) := by
          unfold handle_create_body
          simp only [hl]
          rw [if_neg hskip]
          rfl
        rw [hstep]
        have hmem_a : (a, iss) ∈ db.issues := lookupIssue_mem hl
        have hbound_a : ∀ l ∈ iss.pullRequests, l < db.nextPr := hWF.2.2 (a, iss) hmem_a
        -- facts about the post-step store
        have f1 : ∀ j, j ≠ a →
            lookupIssue (dbCommit (issueSet
              (prCreate db prid (some (tit.getD "")) (some (st.getD ""))).1 a
              { iss with pullRequests := iss.pullRequests ++ [db.nextPr] })) j =
              lookupIssue db j := by
          intro j hj
          exact lookupIssue_issueSet_ne _ _ hj
        have f2 : lookupIssue (dbCommit (issueSet
            (prCreate db prid (some (tit.getD "")) (some (st.getD ""))).1 a
            { iss with pullRequests := iss.pullRequests ++ [db.nextPr] })) a =
            some { iss with pullRequests := iss.pullRequests ++ [db.nextPr] } := by
          have h2 := lookupIssue_issueSet_self
            (prCreate db prid (some (tit.getD "")) (some (st.getD ""))).1 a
            { iss with pullRequests := iss.pullRequests ++ [db.nextPr] }
          rw [show lookupIssue (prCreate db prid (some (tit.getD ""))
              (some (st.getD ""))).1 a = some iss from hl] at h2
          exact h2
        have f3 : ∀ l : Nat, l < db.nextPr →
            matchesNum (dbCommit (issueSet
              (prCreate db prid (some (tit.getD "")) (some (st.getD ""))).1 a
              { iss with pullRequests := iss.pullRequests ++ [db.nextPr] })) prid l =
              matchesNum db prid l := by
          intro l hlt
          exact matchesNum_eq_of_lookup_eq
            (lookupPr_prCreate_old db prid (some (tit.getD "")) (some (st.getD ""))
              (Nat.ne_of_lt hlt))
        have f4 : matchesNum (dbCommit (issueSet
            (prCreate db prid (some (tit.getD "")) (some (st.getD ""))).1 a
            { iss with pullRequests := iss.pullRequests ++ [db.nextPr] })) prid
            db.nextPr = true := by
          unfold matchesNum
          rw [show lookupPr (dbCommit (issueSet
              (prCreate db prid (some (tit.getD "")) (some (st.getD ""))).1 a
              { iss with pullRequests := iss.pullRequests ++ [db.nextPr] })) db.nextPr =
              some ⟨prid, some (tit.getD ""), some (st.getD "")⟩ from
            lookupPr_prCreate_new db prid (some (tit.getD "")) (some (st.getD "")) hWF.2.1]
          simp
        have f5 : countLinked (dbCommit (issueSet
            (prCreate db prid (some (tit.getD "")) (some (st.getD ""))).1 a
            { iss with pullRequests := iss.pullRequests ++ [db.nextPr] })) a prid = 1 := by
          unfold countLinked
          simp only [f2]
          rw [List.filter_append]
          rw [List.filter_congr (fun l hl2 => f3 l (hbound_a l hl2))]
          have hx := hc0
          unfold countLinked at hx
          simp only [hl] at hx
          rw [List.length_eq_zero.mp hx]
          simp only [List.nil_append, List.filter_cons, f4, if_true, List.filter_nil]
          rfl
        have f6 : ∀ j, j ≠ a →
            countLinked (dbCommit (issueSet
              (prCreate db prid (some (tit.getD "")) (some (st.getD ""))).1 a
              { iss with pullRequests := iss.pullRequests ++ [db.nextPr] })) j prid =
              countLinked db j prid := by
          intro j hj
          apply countLinked_congr (f1 j hj)
          intro issj hlj l hlm
          exact f3 l (hWF.2.2 (j, issj) (lookupIssue_mem hlj) l hlm)
        have f7 : DBwfLinks (dbCommit (issueSet
            (prCreate db prid (some (tit.getD "")) (some (st.getD ""))).1 a
            { iss with pullRequests := iss.pullRequests ++ [db.nextPr] })) := by
          refine ⟨?_, ?_, ?_⟩
          · show ((db.prNodes ++
                [(db.nextPr, (⟨prid, some (tit.getD ""), some (st.getD "")⟩ : PRNode))]).map
                (·.1)).Nodup
            rw [List.map_append, List.nodup_append]
            refine ⟨hWF.1, by simp, ?_⟩
            intro x hx hx2
            simp only [List.map_cons, List.map_nil, List.mem_singleton] at hx2
            subst hx2
            obtain ⟨q, hq, hq1⟩ := List.mem_map.mp hx
            exact absurd (hq1 ▸ hWF.2.1 q hq) (lt_irrefl _)
          · show ∀ p ∈ db.prNodes ++
                [(db.nextPr, (⟨prid, some (tit.getD ""), some (st.getD "")⟩ : PRNode))],
                p.1 < db.nextPr + 1
            intro p hp
            rcases List.mem_append.mp hp with hp | hp
            · exact Nat.lt_succ_of_lt (hWF.2.1 p hp)
            · simp only [List.mem_singleton] at hp
              subst hp
              exact Nat.lt_succ_self _
          · show ∀ q ∈ db.issues.map (fun p => if p.1 == a then
                (p.1, { iss with pullRequests := iss.pullRequests ++ [db.nextPr] }) else p),
                ∀ l ∈ q.2.pullRequests, l < db.nextPr + 1
            intro q hq l hlm
            obtain ⟨p, hp, hpq⟩ := List.mem_map.mp hq
            by_cases hpa : (p.1 == a) = true
            · rw [if_pos hpa] at hpq
              rw [← hpq] at hlm
              simp only at hlm
              rcases List.mem_append.mp hlm with hlm | hlm
              · exact Nat.lt_succ_of_lt (hbound_a l hlm)
              · simp only [List.mem_singleton] at hlm
                subst hlm
                exact Nat.lt_succ_self _
            · rw [if_neg hpa] at hpq
              rw [← hpq] at hlm
              exact Nat.lt_succ_of_lt (hWF.2.2 p hp l hlm)
        have f8 : ∀ id ∈ t, (lookupIssue (dbCommit (issueSet
            (prCreate db prid (some (tit.getD "")) (some (st.getD ""))).1 a
            { iss with pullRequests := iss.pullRequests ++ [db.nextPr] })) id).isSome := by
          intro id hid
          have hne : id ≠ a := fun he => ha (he ▸ hid)
          rw [f1 id hne]
          exact hEx id (List.mem_cons_of_mem a hid)
        obtain ⟨iWF, iframe, icount, iids, istable⟩ := ih _ hNt f8 f7
        refine ⟨iWF, ?_, ?_, ?_, ?_⟩
        · intro j hj
          have hja : j ≠ a := fun he => hj (he ▸ List.mem_cons_self a t)
          rw [iframe j (fun hm => hj (List.mem_cons_of_mem a hm)), f1 j hja]
        · intro j hj
          have hja : j ≠ a := fun he => hj (he ▸ List.mem_cons_self a t)
          rw [icount j (fun hm => hj (List.mem_cons_of_mem a hm)), f6 j hja]
        · intro id hid
          rcases List.mem_cons.mp hid with rfl | hid2
          · rw [if_pos hc0, icount id ha, f5]
          · have hne : id ≠ a := fun he => ha (he ▸ hid2)
            rw [iids id hid2, f6 id hne]
        · intro id hid hcid
          rcases List.mem_cons.mp hid with rfl | hid2
          · exact absurd hc0 hcid
          · have hne : id ≠ a := fun he => ha (he ▸ hid2)
            rw [istable id hid2 (by rw [f6 id hne]; exact hcid), f1 id hne]

/-- Re-running `handle_create` when every target issue already carries a
same-number link mutates nothing. -/
theorem handle_create_noop (prid tit st : Option String) (ids : List String) (db : DB)
    (hNpr : (db.prNodes.map (·.1)).Nodup)
    (hskip : ∀ id ∈ ids, countLinked db id prid ≠ 0) :
    handle_create db prid tit st ids = db := by
  unfold handle_create
  split
  · rename_i hguard
    clear hguard
    induction ids with
    | nil => rfl
    | cons a t ih =>
      rw [List.foldl_cons]
      have hstep : handle_create_body prid tit st db a = db := by
        unfold handle_create_body
        cases hl : lookupIssue db a with
        | none => rfl
        | some iss =>
          show (if (iss.pullRequests.any fun p => (prFilterNumber db prid).contains p)
              then db
              else
                dbCommit (issueSet
                  (prCreate db prid (some (tit.getD "")) (some (st.getD ""))).1 a
                  { iss with pullRequests := iss.pullRequests ++
                      [(prCreate db prid (some (tit.getD "")) (some (st.getD ""))).2] })) = db
          rw [if_pos ((skipCond_true_iff hl hNpr).mpr (hskip a (List.mem_cons_self a t)))]
      rw [hstep]
      exact ih (fun id hid => hskip id (List.mem_cons_of_mem a hid))
  · rfl

theorem handle_create_spec (prid tit st : Option String) (ids : List String) (db : DB)
    (hguard : ((issueFilterIds db ids).length == ids.length) = true)
    (hN : ids.Nodup) (hEx : ∀ id ∈ ids, (lookupIssue db id).isSome)
    (hWF : DBwfLinks db) :
    DBwfLinks (handle_create db prid tit st ids) ∧
    (∀ j, j ∉ ids → lookupIssue (handle_create db prid tit st ids) j = lookupIssue db j) ∧
    (∀ id ∈ ids, countLinked (handle_create db prid tit st ids) id prid =
        if countLinked db id prid = 0 then 1 else countLinked db id prid) := by
  unfold handle_create
  rw [if_pos hguard]
  obtain ⟨w, f, _, ii, _⟩ := handle_create_fold_spec prid tit st ids db hN hEx hWF
  exact ⟨w, f, ii⟩

theorem lookupIssue_eq_of_issues {db2 db : DB} (h : db2.issues = db.issues) (id : String) :
    lookupIssue db2 id = lookupIssue db id := by
  unfold lookupIssue
  rw [h]

theorem countLinked_eq_of {db2 db : DB} (hiss : db2.issues = db.issues)
    (hprn : db2.prNodes = db.prNodes) (j : String) (num : Option String) :
    countLinked db2 j num = countLinked db j num := by
  unfold countLinked matchesNum lookupPr lookupIssue
  rw [hiss, hprn]

theorem set_roundup_user_stable {db2 db : DB} (l : String)
    (husers : db2.users = db.users)
    (hcur : db2.curUser = (set_roundup_user db l).curUser) :
    set_roundup_user db2 l = db2 := by
  unfold set_roundup_user at hcur ⊢
  have hfg : userFilterGithub db2 l = userFilterGithub db l := by
    unfold userFilterGithub; rw [husers]
  have hfu : userFilterUsername db2 "python-dev" = userFilterUsername db "python-dev" := by
    unfold userFilterUsername; rw [husers]
  rw [hfg, hfu]
  cases hh : (if (userFilterGithub db l).isEmpty then userFilterUsername db "python-dev"
      else userFilterGithub db l).head? with
  | none => rfl
  | some uid =>
    simp only [hh] at hcur
    have hg : userGetUsername db2 uid = userGetUsername db uid := by
      unfold userGetUsername; rw [husers]
    show ({ db2 with curUser := userGetUsername db2 uid } : DB) = db2
    rw [hg, ← hcur]

theorem except_bind_ok {α β : Type} (a : α) (f : α → Except GHError β) :
    ((Except.ok a : Except GHError α) >>= f) = f a := rfl

theorem except_bind_error {α β : Type} (e : GHError) (f : α → Except GHError β) :
    ((Except.error e : Except GHError α) >>= f) = Except.error e := rfl

theorem except_pure {α : Type} (a : α) :
    (pure a : Except GHError α) = Except.ok a := rfl

/-- C9 (amended): the only way any handler creates a tracker issue is the
auto-create branch of `Event.dispatch`: a payload carrying a `pull_request`
object (so a pull-request or review-comment event, of ANY action — the code
never consults the action), with `CREATE_ISSUE` truthy and no issue
reference extracted.  Issue-comment deliveries that reach the branch fail
with `AttributeError` before creating anything, so a successful comment
dispatch never changes which issues exist, and a push dispatch never does
either. -/
theorem c9_issue_creation_amended :
    (∀ (env : Option String) (data : PRPayload) (pr : PRObj) (db db' : DB),
      data.pullRequest = some pr →
      PullRequest_dispatch env data db = .ok db' →
      db'.issues.map (·.1) = db.issues.map (·.1) ++
          (if (prExtractedIds pr).isEmpty && envTruthy env
           then [toString db.nextIssue] else []) ∧
      db'.nextIssue = db.nextIssue +
          (if (prExtractedIds pr).isEmpty && envTruthy env then 1 else 0)) ∧
    (∀ (env : Option String) (data : ICPayload) (db db' : DB),
      IssueComment_dispatch env data db = .ok db' →
      db'.issues.map (·.1) = db.issues.map (·.1) ∧ db'.nextIssue = db.nextIssue) ∧
    (∀ (db : DB) (data : PushPayload) (db' : DB),
      Push_dispatch db data = .ok db' →
      db'.issues.map (·.1) = db.issues.map (·.1) ∧ db'.nextIssue = db.nextIssue) := by
  refine ⟨?_, ?_, ?_⟩
  · intro env data pr db db' hpr h
    have hu : PR_get_github_username data = .ok pr.userLogin := by
      unfold PR_get_github_username; rw [hpr]
    have hi : PR_get_issue_ids data = .ok (prExtractedIds pr) := by
      unfold PR_get_issue_ids; rw [hpr]
    unfold PullRequest_dispatch event_dispatch at h
    simp only [hu, hi, hpr, except_bind_ok] at h
    have hstate := set_roundup_user_state db pr.userLogin
    cases hb : (prExtractedIds pr).isEmpty with
    | false =>
      simp only [hb, Bool.false_and, if_false, Bool.false_eq_true, if_neg, ite_false,
        except_pure, except_bind_ok] at h ⊢
      cases hd : PR_get_pr_details data with
      | error e => simp only [hd, except_bind_error] at h; exact absurd h (by simp)
      | ok d =>
        simp only [hd, except_bind_ok] at h
        obtain ⟨db2, heq, hshape⟩ :=
          PR_handle_action_ok (set_roundup_user db pr.userLogin)
            ((data.action).getD "") d.1 d.2.1 d.2.2 (prExtractedIds pr)
        rw [heq] at h
        injection h with h
        subst h
        refine ⟨?_, ?_⟩
        · rw [hshape.1, hstate.1, List.append_nil]
        · rw [hshape.2.1, hstate.2.2.2.2.2.1]
          omega
    | true =>
      simp only [hb, Bool.true_and, except_pure, except_bind_ok] at h ⊢
      cases he : envTruthy env with
      | false =>
        simp only [he, Bool.false_eq_true, if_false, ite_false, except_pure,
          except_bind_ok] at h ⊢
        cases hd : PR_get_pr_details data with
        | error e => simp only [hd, except_bind_error] at h; exact absurd h (by simp)
        | ok d =>
          simp only [hd, except_bind_ok] at h
          obtain ⟨db2, heq, hshape⟩ :=
            PR_handle_action_ok (set_roundup_user db pr.userLogin)
              ((data.action).getD "") d.1 d.2.1 d.2.2 (prExtractedIds pr)
          rw [heq] at h
          injection h with h
          subst h
          exact ⟨by rw [hshape.1, hstate.1, List.append_nil],
            by rw [hshape.2.1, hstate.2.2.2.2.2.1]; omega⟩
      | true =>
        simp only [he, if_true, ite_true, issueCreate, except_pure, except_bind_ok] at h ⊢
        cases hd : PR_get_pr_details data with
        | error e => simp only [hd, except_bind_error] at h; exact absurd h (by simp)
        | ok d =>
          simp only [hd, except_bind_ok] at h
          obtain ⟨db2, heq, hshape⟩ := PR_handle_action_ok _
            ((data.action).getD "") d.1 d.2.1 d.2.2 _
          rw [heq] at h
          injection h with h
          subst h
          refine ⟨?_, ?_⟩
          · rw [hshape.1]
            simp only [List.map_append, List.map_cons, List.map_nil]
            rw [hstate.1, hstate.2.2.2.2.2.1]
          · rw [hshape.2.1]
            simp only []
            rw [hstate.2.2.2.2.2.1]
  · intro env data db db' h
    unfold IssueComment_dispatch event_dispatch at h
    cases hu : IC_get_github_username data with
    | error e => simp only [hu, except_bind_error] at h; exact absurd h (by simp)
    | ok login =>
      simp only [hu, except_bind_ok] at h
      have hstate := set_roundup_user_state db login
      cases hi : IC_get_issue_ids data with
      | error e => simp only [hi, except_bind_error] at h; exact absurd h (by simp)
      | ok ids =>
        simp only [hi, except_bind_ok] at h
        cases hb : ids.isEmpty with
        | true =>
          simp only [hb, if_true, ite_true] at h
          cases he : envTruthy env with
          | true =>
            simp only [he, if_true, ite_true, except_bind_error] at h
            exact absurd h (by simp)
          | false =>
            simp only [he, Bool.false_eq_true, if_false, ite_false, except_pure,
              except_bind_ok] at h
            cases hd : IC_get_pr_details data with
            | error e => simp only [hd, except_bind_error] at h; exact absurd h (by simp)
            | ok d =>
              simp only [hd, except_bind_ok] at h
              obtain ⟨db2, heq, hshape⟩ :=
                IC_handle_action_ok (set_roundup_user db login)
                  ((data.action).getD "") d.1 d.2.1 d.2.2 ids
              rw [heq] at h
              injection h with h
              subst h
              exact ⟨by rw [hshape.1, hstate.1], by rw [hshape.2.1, hstate.2.2.2.2.2.1]⟩
        | false =>
          simp only [hb, Bool.false_eq_true, if_false, ite_false, except_pure,
            except_bind_ok] at h
          cases hd : IC_get_pr_details data with
          | error e => simp only [hd, except_bind_error] at h; exact absurd h (by simp)
          | ok d =>
            simp only [hd, except_bind_ok] at h
            obtain ⟨db2, heq, hshape⟩ :=
              IC_handle_action_ok (set_roundup_user db login)
                ((data.action).getD "") d.1 d.2.1 d.2.2 ids
            rw [heq] at h
            injection h with h
            subst h
            exact ⟨by rw [hshape.1, hstate.1], by rw [hshape.2.1, hstate.2.2.2.2.2.1]⟩
  · intro db data db' h
    unfold Push_dispatch at h
    have hstate := set_roundup_user_state db data.pusherName
    split at h
    · injection h with h
      subst h
      exact ⟨by rw [hstate.1], hstate.2.2.2.2.2.1⟩
    · cases hp : pushApply (set_roundup_user db data.pusherName)
          (pushAccumulate data.commits ((data.ref).getD "refs/heads/master")) with
      | error e => rw [hp] at h; exact absurd h (by simp)
      | ok db2 =>
        rw [hp] at h
        injection h with h
        subst h
        have hs := pushApply_shape _ _ _ hp
        exact ⟨by rw [show (dbCommit db2).issues = db2.issues from rfl, hs.1, hstate.1],
          by rw [show (dbCommit db2).nextIssue = db2.nextIssue from rfl, hs.2,
            hstate.2.2.2.2.2.1]⟩

/-- Witness for C9 (amended), part one, at a concrete `pull_request` payload
referencing issue 1 (so no auto-creation: the id list is non-empty). -/
theorem c9_issue_creation_amended_witness :
    ({ issues := [("1", {})] } : DB).issues.map (·.1) =
        ({ issues := [("1", {})] } : DB).issues.map (·.1) ++
          (if (prExtractedIds
                { number := some 1, title := "", body := "bpo 1", state := "",
                  merged := false, userLogin := "" }).isEmpty && envTruthy none
           then [toString ({ issues := [("1", {})] } : DB).nextIssue] else []) ∧
      ({ issues := [("1", {})] } : DB).nextIssue =
        ({ issues := [("1", {})] } : DB).nextIssue +
          (if (prExtractedIds
                { number := some 1, title := "", body := "bpo 1", state := "",
                  merged := false, userLogin := "" }).isEmpty && envTruthy none
           then 1 else 0) :=
  c9_issue_creation_amended.1 none
    { action := some "x",
      pullRequest := some { number := some 1, title := "", body := "bpo 1", state := "", merged := false, userLogin := "" } }
    { number := some 1, title := "", body := "bpo 1", state := "", merged := false, userLogin := "" }
    { issues := [("1", {})] } { issues := [("1", {})] } rfl rfl

/-- C4: dispatching the same `pull_request opened` payload twice against the
same store is redelivery-safe: the first dispatch leaves exactly one link
with the PR's number on each referenced issue, and the second dispatch is a
no-op (it returns the store unchanged), because `handle_create` skips every
issue whose links already include one with the same external number. -/
theorem c4_redelivery_idempotent (data : PRPayload) (pr : PRObj) (n : Nat) (db : DB)
    (hpr : data.pullRequest = some pr) (hn : pr.number = some n)
    (ha : data.action = some "opened")
    (hWF : DBwfLinks db)
    (hEx : ∀ id ∈ prExtractedIds pr, (lookupIssue db id).isSome)
    (hGuard : ((issueFilterIds db (prExtractedIds pr)).length ==
        (prExtractedIds pr).length) = true)
    (hClean : ∀ id ∈ prExtractedIds pr, countLinked db id (some (toString n)) = 0) :
    ∃ db1, PullRequest_dispatch none data db = .ok db1 ∧
      PullRequest_dispatch none data db1 = .ok db1 ∧
      ∀ id ∈ prExtractedIds pr, countLinked db1 id (some (toString n)) = 1 := by
  have hu : PR_get_github_username data = .ok pr.userLogin := by
    unfold PR_get_github_username; rw [hpr]
  have hi : PR_get_issue_ids data = .ok (prExtractedIds pr) := by
    unfold PR_get_issue_ids; rw [hpr]
  have hdet : PR_get_pr_details data =
      .ok (some (toString n), some pr.title,
        some (if pr.merged then "merged" else pr.state)) := by
    unfold PR_get_pr_details
    simp only [hpr, hn]
  have hred : ∀ dbx : DB, PullRequest_dispatch none data dbx =
      .ok (handle_create (set_roundup_user dbx pr.userLogin) (some (toString n))
        (some pr.title) (some (if pr.merged then "merged" else pr.state))
        (prExtractedIds pr)) := by
    intro dbx
    unfold PullRequest_dispatch event_dispatch
    simp only [hu, hi, hdet, ha, except_bind_ok, except_pure]
    cases hb : (prExtractedIds pr).isEmpty with
    | true =>
      simp only [hb, if_true, ite_true, show envTruthy none = false from rfl,
        Bool.false_eq_true, if_false, ite_false, except_pure, except_bind_ok]
      rfl
    | false =>
      simp only [hb, Bool.false_eq_true, if_false, ite_false, except_pure, except_bind_ok]
      rfl
  have hst := set_roundup_user_state db pr.userLogin
  have hiss0 : (set_roundup_user db pr.userLogin).issues = db.issues := hst.1
  have hprn0 : (set_roundup_user db pr.userLogin).prNodes = db.prNodes := hst.2.1
  have hEx0 : ∀ id ∈ prExtractedIds pr,
      (lookupIssue (set_roundup_user db pr.userLogin) id).isSome := by
    intro id hid
    rw [lookupIssue_eq_of_issues hiss0]
    exact hEx id hid
  have hWF0 : DBwfLinks (set_roundup_user db pr.userLogin) := by
    unfold DBwfLinks
    rw [hiss0, hprn0, hst.2.2.1]
    exact hWF
  have hGuard0 : ((issueFilterIds (set_roundup_user db pr.userLogin)
      (prExtractedIds pr)).length == (prExtractedIds pr).length) = true := by
    rw [show issueFilterIds (set_roundup_user db pr.userLogin) (prExtractedIds pr) =
        issueFilterIds db (prExtractedIds pr) from by
      unfold issueFilterIds; rw [hiss0]]
    exact hGuard
  have hClean0 : ∀ id ∈ prExtractedIds pr,
      countLinked (set_roundup_user db pr.userLogin) id (some (toString n)) = 0 := by
    intro id hid
    rw [countLinked_eq_of hiss0 hprn0]
    exact hClean id hid
  have hNodup : (prExtractedIds pr).Nodup := dedupFirst_nodup _
  obtain ⟨w1, f1, c1⟩ := handle_create_spec (some (toString n)) (some pr.title)
    (some (if pr.merged then "merged" else pr.state)) (prExtractedIds pr)
    (set_roundup_user db pr.userLogin) hGuard0 hNodup hEx0 hWF0
  have hcounts1 : ∀ id ∈ prExtractedIds pr,
      countLinked (handle_create (set_roundup_user db pr.userLogin) (some (toString n))
        (some pr.title) (some (if pr.merged then "merged" else pr.state))
        (prExtractedIds pr)) id (some (toString n)) = 1 := by
    intro id hid
    rw [c1 id hid, hClean0 id hid]
    simp
  refine ⟨_, hred db, ?_, hcounts1⟩
  rw [hred _]
  have hshape := handle_create_shape (set_roundup_user db pr.userLogin) (some (toString n))
    (some pr.title) (some (if pr.merged then "merged" else pr.state)) (prExtractedIds pr)
  have husers1 : (handle_create (set_roundup_user db pr.userLogin) (some (toString n))
      (some pr.title) (some (if pr.merged then "merged" else pr.state))
      (prExtractedIds pr)).users = db.users :=
    hshape.2.2.2.2.1.trans hst.2.2.2.2.2.2.1
  have hcur1 : (handle_create (set_roundup_user db pr.userLogin) (some (toString n))
      (some pr.title) (some (if pr.merged then "merged" else pr.state))
      (prExtractedIds pr)).curUser = (set_roundup_user db pr.userLogin).curUser :=
    hshape.2.2.2.2.2
  rw [set_roundup_user_stable pr.userLogin husers1 hcur1]
  rw [handle_create_noop _ _ _ _ _ w1.1
    (fun id hid => by rw [hcounts1 id hid]; exact one_ne_zero)]

/-- Witness for C4 at a concrete store holding issue 1 and a PR payload
whose body references `bpo 1`. -/
theorem c4_redelivery_idempotent_witness :
    (∃ db1, PullRequest_dispatch none
        { action := some "opened",
          pullRequest := some { number := some 7, title := "t", body := "bpo 1", state := "open", merged := false, userLogin := "" } }
        ({ issues := [("1", {})] } : DB) = .ok db1 ∧
      PullRequest_dispatch none
        { action := some "opened",
          pullRequest := some { number := some 7, title := "t", body := "bpo 1", state := "open", merged := false, userLogin := "" } }
        db1 = .ok db1 ∧
      ∀ id ∈ prExtractedIds { number := some 7, title := "t", body := "bpo 1", state := "open", merged := false, userLogin := "" },
        countLinked db1 id (some (toString 7)) = 1) :=
  c4_redelivery_idempotent
    { action := some "opened",
      pullRequest := some { number := some 7, title := "t", body := "bpo 1", state := "open", merged := false, userLogin := "" } }
    { number := some 7, title := "t", body := "bpo 1", state := "open", merged := false, userLogin := "" }
    7 { issues := [("1", {})] } rfl rfl rfl (by decide) (by decide) (by decide) (by decide)

/-! ### URL_RE lemmas -/

theorem matchLit_eq_append {lit l r : List Char} (h : matchLit lit l = some r) :
    l = lit ++ r := by
  induction lit generalizing l with
  | nil =>
    simp only [matchLit, Option.some.injEq] at h
    rw [h]; rfl
  | cons a as ih =>
    cases l with
    | nil => simp [matchLit] at h
    | cons c cs =>
      simp only [matchLit] at h
      split at h
      · rename_i hca
        rw [hca, List.cons_append, ih h]
      · exact absurd h (by simp)

theorem matchLit_self_append (lit r : List Char) : matchLit lit (lit ++ r) = some r := by
  induction lit with
  | nil => rfl
  | cons a as ih => simp [matchLit, ih]

theorem urlMatchAt_isSome_iff (l : List Char) :
    (urlMatchAt l).isSome = true ↔
      ∃ c ds post,
        l = "https://github".data ++ [c] ++ "com/python/cpython/pull/".data ++ ds ++ post ∧
          c ≠ '\n' ∧ ds ≠ [] ∧ ds.all isDigitChar := by
  constructor
  · intro h
    unfold urlMatchAt at h
    cases h1 : matchLit "https://github".data l with
    | none => simp [h1] at h
    | some r1 =>
      cases r1 with
      | nil => simp [h1] at h
      | cons c r2 =>
        simp only [h1] at h
        by_cases hc : c = '\n'
        · rw [if_pos hc] at h; simp at h
        · rw [if_neg hc] at h
          cases h2 : matchLit "com/python/cpython/pull/".data r2 with
          | none => simp [h2] at h
          | some r3 =>
            simp only [h2] at h
            by_cases hd : (r3.takeWhile isDigitChar).isEmpty
            · rw [if_pos hd] at h; simp at h
            · refine ⟨c, r3.takeWhile isDigitChar, r3.dropWhile isDigitChar, ?_, hc, ?_, ?_⟩
              · have e1 := matchLit_eq_append h1
                have e2 := matchLit_eq_append h2
                rw [e1, e2]
                simp only [List.append_assoc]
                rw [List.takeWhile_append_dropWhile]
                rfl
              · intro hnil
                rw [hnil] at hd
                simp at hd
              · rw [List.all_eq_true]
                intro x hx
                exact List.mem_takeWhile_imp hx
  · rintro ⟨c, ds, post, hl, hc, hds, hall⟩
    subst hl
    unfold urlMatchAt
    have hassoc : "https://github".data ++ [c] ++ "com/python/cpython/pull/".data ++ ds ++ post =
        "https://github".data ++ ([c] ++ ("com/python/cpython/pull/".data ++ (ds ++ post))) := by
      simp [List.append_assoc]
    rw [hassoc, matchLit_self_append]
    simp only [List.singleton_append]
    rw [if_neg hc, matchLit_self_append]
    obtain ⟨d, ds', rfl⟩ := List.exists_cons_of_ne_nil hds
    have hd : isDigitChar d = true := by
      simp only [List.all_cons, Bool.and_eq_true] at hall
      exact hall.1
    simp [List.takeWhile_cons, hd]

theorem urlSearchAux_isSome_iff :
    ∀ (l : List Char) (fuel : Nat), l.length < fuel →
      ((urlSearchAux fuel l).isSome = true ↔
        ∃ pre suf, l = pre ++ suf ∧ (urlMatchAt suf).isSome = true) := by
  intro l
  induction l with
  | nil =>
    intro fuel hf
    constructor
    · intro h
      cases fuel with
      | zero => simp [urlSearchAux] at h
      | succ n => simp [urlSearchAux] at h
    · rintro ⟨pre, suf, hps, hm⟩
      have hsuf : suf = [] := (List.append_eq_nil.mp hps.symm).2
      subst hsuf
      have : urlMatchAt [] = none := by decide
      rw [this] at hm
      simp at hm
  | cons c cs ih =>
    intro fuel hf
    cases fuel with
    | zero => exact absurd hf (by omega)
    | succ n =>
      rw [urlSearchAux]
      cases hm : urlMatchAt (c :: cs) with
      | some m =>
        constructor
        · intro _
          exact ⟨[], c :: cs, rfl, by rw [hm]; rfl⟩
        · intro _; rfl
      | none =>
        have hlen : cs.length < n := by
          simp only [List.length_cons] at hf
          omega
        constructor
        · intro h
          obtain ⟨pre, suf, hps, hp⟩ := (ih n hlen).mp h
          exact ⟨c :: pre, suf, by rw [List.cons_append, ← hps], hp⟩
        · rintro ⟨pre, suf, hps, hp⟩
          apply (ih n hlen).mpr
          cases pre with
          | nil =>
            simp only [List.nil_append] at hps
            rw [← hps, hm] at hp
            simp at hp
          | cons p pre2 =>
            rw [List.cons_append] at hps
            injection hps with h1 h2
            exact ⟨pre2, suf, h2, hp⟩

theorem urlSearch_isSome_iff (s : String) :
    (URL_RE_search s).isSome = true ↔ loosePullUrl s := by
  unfold URL_RE_search loosePullUrl
  have hlen : s.data.length < s.length + 1 := by
    have : s.length = s.data.length := rfl
    omega
  rw [urlSearchAux_isSome_iff s.data (s.length + 1) hlen]
  constructor
  · rintro ⟨pre, suf, hps, hm⟩
    obtain ⟨c, ds, post, hsuf, hc, hds, hall⟩ := (urlMatchAt_isSome_iff suf).mp hm
    refine ⟨pre, c, ds, post, ?_, hc, hds, hall⟩
    rw [hps, hsuf]
    simp [List.append_assoc]
  · rintro ⟨pre, c, ds, post, hl, hc, hds, hall⟩
    refine ⟨pre,
      "https://github".data ++ [c] ++ "com/python/cpython/pull/".data ++ ds ++ post, ?_, ?_⟩
    · rw [hl]
      simp [List.append_assoc]
    · exact (urlMatchAt_isSome_iff _).mpr ⟨c, ds, post, rfl, hc, hds, hall⟩

/-- C10 (amended): for an `issue_comment` event, a pull-request number is
extracted exactly when the issue's pull-request URL contains, anywhere, the
two literal runs `https://github` and `com/python/cpython/pull/` separated
by one arbitrary non-newline character (the unescaped dot) and followed by
at least one digit; any URL without such a substring yields the details
`(None, None, None)`, after which a `created` action still invokes the
create path with a `None` number rather than being skipped. -/
theorem c10_url_amended :
    (∀ s : String, (URL_RE_search s).isSome = true ↔ loosePullUrl s) ∧
    (∀ (data : ICPayload) (iss : ICIssue) (url : String),
      data.issue = some iss → iss.pullRequestHtmlUrl = some url →
      ((∃ n, IC_get_pr_details data = .ok (some n, none, none)) ↔ loosePullUrl url) ∧
      (¬ loosePullUrl url → IC_get_pr_details data = .ok (none, none, none))) ∧
    (∀ (env : Option String) (data : ICPayload) (iss : ICIssue) (url : String) (db : DB)
      (ids : List String),
      data.issue = some iss → iss.pullRequestHtmlUrl = some url →
      data.action = some "created" → ¬ loosePullUrl url →
      IC_get_issue_ids data = .ok ids → ids ≠ [] →
      IssueComment_dispatch env data db =
        .ok (handle_create (set_roundup_user db iss.userLogin) none none none ids)) := by
  have hdet : ∀ (data : ICPayload) (iss : ICIssue) (url : String),
      data.issue = some iss → iss.pullRequestHtmlUrl = some url → ¬ loosePullUrl url →
      IC_get_pr_details data = .ok (none, none, none) := by
    intro data iss url hiss hurl hloose
    unfold IC_get_pr_details
    simp only [hiss, hurl]
    cases hs : URL_RE_search url with
    | some n =>
      exfalso
      exact hloose ((urlSearch_isSome_iff url).mp (by rw [hs]; rfl))
    | none => simp only [hs]
  refine ⟨urlSearch_isSome_iff, ?_, ?_⟩
  · intro data iss url hiss hurl
    constructor
    · constructor
      · rintro ⟨n, hn⟩
        unfold IC_get_pr_details at hn
        simp only [hiss, hurl] at hn
        cases hs : URL_RE_search url with
        | some m => exact (urlSearch_isSome_iff url).mp (by rw [hs]; rfl)
        | none => simp [hs] at hn
      · intro hl
        obtain ⟨m, hm⟩ := Option.isSome_iff_exists.mp ((urlSearch_isSome_iff url).mpr hl)
        refine ⟨m, ?_⟩
        unfold IC_get_pr_details
        simp only [hiss, hurl, hm]
    · exact hdet data iss url hiss hurl
  · intro env data iss url db ids hiss hurl haction hloose hids hne
    obtain ⟨i, l, rfl⟩ := List.exists_cons_of_ne_nil hne
    have hlogin : IC_get_github_username data = .ok iss.userLogin := by
      unfold IC_get_github_username; rw [hiss]
    have hd := hdet data iss url hiss hurl hloose
    unfold IssueComment_dispatch event_dispatch
    rw [hlogin, hids, hd, haction]
    rfl

/-- Witness for C10 (amended): a comment on an issue whose pull-request URL
is `nope` still links the referenced issue to a number-less record. -/
theorem c10_url_amended_witness :
    IssueComment_dispatch none
        { action := some "created",
          issue := some { title := "", pullRequestHtmlUrl := some "nope", userLogin := "u1" },
          commentBody := some "bpo 1" }
        { issues := [("1", {})] } =
      .ok (handle_create
        (set_roundup_user { issues := [("1", {})] } "u1") none none none ["1"]) :=
  c10_url_amended.2.2 none
    { action := some "created",
      issue := some { title := "", pullRequestHtmlUrl := some "nope", userLogin := "u1" },
      commentBody := some "bpo 1" }
    { title := "", pullRequestHtmlUrl := some "nope", userLogin := "u1" } "nope"
    { issues := [("1", {})] } ["1"] rfl rfl rfl
    (fun hl => by
      have hs := (c10_url_amended.1 "nope").mpr hl
      rw [show URL_RE_search "nope" = none from by decide] at hs
      simp at hs)
    rfl (by decide)

/-! ### C5: update-or-create on edited/closed pull requests -/

theorem lookupPr_prSet_self (db : DB) (id : Nat) (v : PRNode) :
    lookupPr (prSet db id v) id = (lookupPr db id).map (fun _ => v) := by
  unfold lookupPr prSet
  simp only [find?_update_self, Option.map_map]
  rfl

theorem lookupPr_prSet_ne (db : DB) {id j : Nat} (v : PRNode) (hne : j ≠ id) :
    lookupPr (prSet db id v) j = lookupPr db j := by
  unfold lookupPr prSet
  rw [find?_update_ne _ _ _ _ hne]

theorem lookupPr_dbCommit (db : DB) (l : Nat) :
    lookupPr (dbCommit db) l = lookupPr db l := rfl

theorem updLinkStep_lookup (prid tt ss : Option String) (db : DB) (p l : Nat)
    (node : PRNode) (h : lookupPr db l = some node) :
    lookupPr (updLinkStep prid tt ss db p) l =
      some (if l = p ∧ node.number = prid then
              { node with title := tt, status := ss } else node) := by
  unfold updLinkStep
  by_cases hlp : l = p
  · by_cases hn : node.number = prid
    · rw [if_pos ⟨hlp, hn⟩]
      subst hlp
      simp only [h]
      rw [if_pos (show (node.number == prid) = true by simp [hn])]
      rw [lookupPr_dbCommit, lookupPr_prSet_self, h]
      rfl
    · rw [if_neg (fun hc => hn hc.2)]
      subst hlp
      simp only [h]
      rw [if_neg (show ¬ (node.number == prid) = true by simp [hn])]
      exact h
  · rw [if_neg (fun hc => hlp hc.1)]
    cases hq : lookupPr db p with
    | none => simp only [hq]; exact h
    | some nodep =>
      simp only [hq]
      cases hb : (nodep.number == prid) with
      | true =>
        rw [if_pos rfl, lookupPr_dbCommit, lookupPr_prSet_ne _ _ hlp]
        exact h
      | false =>
        rw [if_neg Bool.false_ne_true]
        exact h

theorem updLinkStep_foldl_lookup (prid tt ss : Option String) :
    ∀ (prs : List Nat) (db : DB) (l : Nat) (node : PRNode),
      lookupPr db l = some node →
      lookupPr (prs.foldl (updLinkStep prid tt ss) db) l =
        some (if l ∈ prs ∧ node.number = prid then
                { node with title := tt, status := ss } else node) := by
  intro prs
  induction prs with
  | nil =>
    intro db l node h
    rw [List.foldl_nil, h]
    rw [if_neg (fun hc => List.not_mem_nil l hc.1)]
  | cons p rest ih =>
    intro db l node h
    rw [List.foldl_cons]
    have hstep := updLinkStep_lookup prid tt ss db p l node h
    by_cases hc1 : l = p ∧ node.number = prid
    · rw [if_pos hc1] at hstep
      have hres := ih (updLinkStep prid tt ss db p) l _ hstep
      simp only [show ({ node with title := tt, status := ss } : PRNode).number =
        node.number from rfl] at hres
      rw [hres, ite_self,
        if_pos (show l ∈ p :: rest ∧ node.number = prid from
          ⟨by rw [hc1.1]; exact List.mem_cons_self p rest, hc1.2⟩)]
    · rw [if_neg hc1] at hstep
      have hres := ih (updLinkStep prid tt ss db p) l node hstep
      rw [hres]
      by_cases hc2 : l ∈ rest ∧ node.number = prid
      · rw [if_pos hc2,
          if_pos (show l ∈ p :: rest ∧ node.number = prid from
            ⟨List.mem_cons_of_mem p hc2.1, hc2.2⟩)]
      · rw [if_neg hc2,
          if_neg (show ¬(l ∈ p :: rest ∧ node.number = prid) from fun hx =>
            (List.mem_cons.mp hx.1).elim (fun he => hc1 ⟨he, hx.2⟩)
              (fun hm => hc2 ⟨hm, hx.2⟩))]

theorem handle_update_single (db : DB) (prid : Option String) (t : String)
    (s : Option String) (id : String) (iss : Issue)
    (ht : (t == "") = false)
    (hguard : ((issueFilterIds db [id]).length == ([id] : List String).length) = true)
    (hiss : lookupIssue db id = some iss) :
    handle_update db prid (some t) s [id] =
      (if (iss.pullRequests.any fun p => (prFilterNumber db prid).contains p) then
        iss.pullRequests.foldl (updLinkStep prid (some t) s) db
      else handle_create db prid (some t) s [id]) := by
  unfold handle_update
  simp only [Option.getD_some]
  simp only [ht, Bool.false_eq_true, if_false, ite_false]
  simp only [hguard, if_true]
  rw [List.foldl_cons, List.foldl_nil]
  simp only [hiss]
  rfl

/-- C5 (amended): for a `pull_request` event with action `edited` or
`closed`, `PullRequest.handle_action` routes to `handle_update`, and —
PROVIDED the new title is non-empty (`if not title: return` silently drops
the whole event otherwise, see the counterexample) and the target issue
exists — when the issue already carries a link with the same number, every
attached link node whose number matches gets its title and status updated;
when it carries none, the handler falls back to the create path for that
issue, which then attaches exactly one fresh link. -/
theorem c5_update_or_create_amended (db : DB) (action : String) (prid : Option String)
    (t : String) (s : Option String) (id : String) (iss : Issue)
    (hact : action = "edited" ∨ action = "closed")
    (ht : (t == "") = false)
    (hiss : lookupIssue db id = some iss)
    (hguard : ((issueFilterIds db [id]).length == ([id] : List String).length) = true)
    (hWF : DBwfLinks db) :
    PR_handle_action db action prid (some t) s [id] =
      .ok (handle_update db prid (some t) s [id]) ∧
    ((iss.pullRequests.any fun p => (prFilterNumber db prid).contains p) = true →
      ∀ l ∈ iss.pullRequests, ∀ node, lookupPr db l = some node → node.number = prid →
        lookupPr (handle_update db prid (some t) s [id]) l =
          some { node with title := some t, status := s }) ∧
    ((iss.pullRequests.any fun p => (prFilterNumber db prid).contains p) = false →
      handle_update db prid (some t) s [id] = handle_create db prid (some t) s [id] ∧
      countLinked (handle_update db prid (some t) s [id]) id prid = 1) := by
  have hroute : PR_handle_action db action prid (some t) s [id] =
      .ok (handle_update db prid (some t) s [id]) := by
    rcases hact with rfl | rfl
    · rfl
    · rfl
  have hsingle := handle_update_single db prid t s id iss ht hguard hiss
  refine ⟨hroute, ?_, ?_⟩
  · intro hlinked l hl node hnode hn
    rw [hsingle, if_pos hlinked]
    rw [updLinkStep_foldl_lookup prid (some t) s iss.pullRequests db l node hnode]
    rw [if_pos ⟨hl, hn⟩]
  · intro hnl
    have hcond : ¬ (iss.pullRequests.any fun p =>
        (prFilterNumber db prid).contains p) = true := by
      rw [hnl]; simp
    have heq : handle_update db prid (some t) s [id] =
        handle_create db prid (some t) s [id] := by
      rw [hsingle, if_neg hcond]
    refine ⟨heq, ?_⟩
    have hc0 : countLinked db id prid = 0 := by
      by_contra hne
      exact hcond ((skipCond_true_iff hiss hWF.1).mpr hne)
    have hEx : ∀ j ∈ [id], (lookupIssue db j).isSome := by
      intro j hj
      rw [List.mem_singleton.mp hj, hiss]
      rfl
    obtain ⟨-, -, hcount⟩ := handle_create_spec prid (some t) s [id] db hguard
      (List.nodup_singleton id) hEx hWF
    rw [heq, hcount id (List.mem_singleton_self id), hc0, if_pos rfl]

/-- Witness for C5 (amended): issue 1 exists with no links; an edited event
with non-empty title `T` falls through to the create path and attaches one
link numbered 7. -/
theorem c5_update_or_create_amended_witness :
    PR_handle_action { issues := [("1", {})] } "edited" (some "7") (some "T") none ["1"] =
      .ok (handle_update { issues := [("1", {})] } (some "7") (some "T") none ["1"]) ∧
    ((({} : Issue).pullRequests.any fun p =>
        (prFilterNumber { issues := [("1", {})] } (some "7")).contains p) = true →
      ∀ l ∈ ({} : Issue).pullRequests, ∀ node,
        lookupPr { issues := [("1", {})] } l = some node → node.number = some "7" →
          lookupPr (handle_update { issues := [("1", {})] } (some "7") (some "T") none
            ["1"]) l = some { node with title := some "T", status := none }) ∧
    ((({} : Issue).pullRequests.any fun p =>
        (prFilterNumber { issues := [("1", {})] } (some "7")).contains p) = false →
      handle_update { issues := [("1", {})] } (some "7") (some "T") none ["1"] =
        handle_create { issues := [("1", {})] } (some "7") (some "T") none ["1"] ∧
      countLinked (handle_update { issues := [("1", {})] } (some "7") (some "T") none ["1"])
        "1" (some "7") = 1) :=
  c5_update_or_create_amended { issues := [("1", {})] } "edited" (some "7") "T" none "1" {}
    (Or.inl rfl) (by decide) rfl (by decide) (by decide)

/-! ### C1: the push pipeline -/

theorem dedup_fold_keys_nodup {γ α β : Type} [BEq α] [LawfulBEq α]
    (f : γ → α) (g : γ → β) (l : List γ) :
    ∀ (acc : List (α × β)), ((acc.map (·.1)).Nodup) →
      ((l.foldl (fun acc vd =>
          if acc.any (fun e => e.1 == f vd) then acc
          else acc ++ [(f vd, g vd)]) acc).map (·.1)).Nodup := by
  induction l with
  | nil => intro acc h; exact h
  | cons vd rest ih =>
    intro acc h
    simp only [List.foldl_cons]
    by_cases hmem : (acc.any (fun e => e.1 == f vd)) = true
    · rw [if_pos hmem]
      exact ih acc h
    · rw [if_neg hmem]
      apply ih
      simp only [List.map_append, List.map_cons, List.map_nil]
      rw [List.nodup_append]
      refine ⟨h, by simp, ?_⟩
      intro a ha hb
      simp only [List.mem_singleton] at hb
      subst hb
      apply hmem
      rw [List.any_eq_true]
      obtain ⟨e, he, heq⟩ := List.mem_map.mp ha
      exact ⟨e, he, by simp [heq]⟩

theorem push_handle_action_keys_nodup (c : Commit) (ref : String) :
    ((push_handle_action c ref).map (·.1)).Nodup := by
  unfold push_handle_action
  exact dedup_fold_keys_nodup (fun vd => vd.2)
    (fun vd => (COMMENT_TEMPLATE c.id c.committerName (lastSegment ref)
        (splitlinesFirst c.message) c.url, vd.1.isSome))
    (ISSUE_BPO_finditer c.message) [] (by simp)

theorem updateA_keys (l : List (String × String × Bool)) (k : String) (v : String × Bool) :
    (updateA l k v).map (·.1) = l.map (·.1) := by
  unfold updateA
  rw [List.map_map]
  apply List.map_congr_left
  intro p _
  by_cases h : (p.1 == k) = true
  · rw [Function.comp_apply, if_pos h]
  · rw [Function.comp_apply, if_neg h]

theorem lookupA_updateA_self (l : List (String × String × Bool)) (k : String)
    (v : String × Bool) :
    lookupA (updateA l k v) k = (lookupA l k).map (fun _ => v) := by
  unfold lookupA updateA
  simp only [find?_update_self, Option.map_map]
  rfl

theorem lookupA_updateA_ne (l : List (String × String × Bool)) (k : String)
    {j : String} (v : String × Bool) (hne : j ≠ k) :
    lookupA (updateA l k v) j = lookupA l j := by
  unfold lookupA updateA
  rw [find?_update_ne _ _ _ _ hne]

theorem lookupA_append_self (l : List (String × String × Bool)) (k : String)
    (v : String × Bool) (h : lookupA l k = none) :
    lookupA (l ++ [(k, v)]) k = some v := by
  have hf : l.find? (fun p => p.1 == k) = none := by
    unfold lookupA at h
    exact Option.map_eq_none'.mp h
  unfold lookupA
  rw [List.find?_append, hf]
  simp only [Option.none_or, List.find?_cons, beq_self_eq_true]
  rfl

theorem lookupA_append_ne (l : List (String × String × Bool)) (k : String)
    {j : String} (v : String × Bool) (hne : j ≠ k) :
    lookupA (l ++ [(k, v)]) j = lookupA l j := by
  unfold lookupA
  rw [List.find?_append]
  have h2 : List.find? (fun p => p.1 == j) [(k, v)] = none := by
    simp only [List.find?_cons,
      show (k == j) = false from beq_eq_false_iff_ne.mpr (Ne.symm hne)]
    rfl
  rw [h2, Option.or_none]

theorem lookupA_eq_none (l : List (String × String × Bool)) (k : String)
    (h : k ∉ l.map (·.1)) : lookupA l k = none := by
  unfold lookupA
  have hf : l.find? (fun p => p.1 == k) = none :=
    List.find?_eq_none.mpr (fun x hx hbeq => h (List.mem_map.mpr ⟨x, hx, eq_of_beq hbeq⟩))
  rw [hf]
  rfl

theorem pushInner_lookup (es : List (String × String × Bool)) :
    ((es.map (·.1)).Nodup) →
    ∀ (msgs : List (String × String × Bool)) (id : String),
      lookupA (es.foldl
          (fun msgs e =>
            match lookupA msgs e.1 with
            | some cur => updateA msgs e.1 (cur.1 ++ "\n" ++ e.2.1, cur.2 || e.2.2)
            | none => msgs ++ [(e.1, "" ++ "\n" ++ e.2.1, false || e.2.2)])
          msgs) id =
        (match lookupA es id, lookupA msgs id with
         | none, cur => cur
         | some b, some cur => some (cur.1 ++ "\n" ++ b.1, cur.2 || b.2)
         | some b, none => some ("" ++ "\n" ++ b.1, false || b.2)) := by
  induction es with
  | nil =>
    intro _ msgs id
    rw [List.foldl_nil]
    rfl
  | cons e rest ih =>
    intro hN msgs id
    have hN2 : (e.1 ∉ rest.map (·.1)) ∧ ((rest.map (·.1)).Nodup) := by
      rw [List.map_cons] at hN
      exact List.nodup_cons.mp hN
    rw [List.foldl_cons]
    by_cases hid : e.1 = id
    · subst hid
      have hrest : lookupA rest e.1 = none := lookupA_eq_none rest e.1 hN2.1
      have hhead : lookupA (e :: rest) e.1 = some e.2 := by
        unfold lookupA
        rw [List.find?_cons_of_pos _ (by simp)]
        rfl
      cases hm : lookupA msgs e.1 with
      | some cur =>
        simp only [hm]
        rw [ih hN2.2 _ e.1]
        simp only [hrest, hhead, lookupA_updateA_self, hm, Option.map_some']
      | none =>
        simp only [hm]
        rw [ih hN2.2 _ e.1]
        simp only [hrest, hhead, lookupA_append_self msgs e.1 _ hm]
    · have hne : id ≠ e.1 := fun hc => hid hc.symm
      have hcons : lookupA (e :: rest) id = lookupA rest id := by
        unfold lookupA
        rw [List.find?_cons_of_neg _ (by simpa using hid)]
      cases hm : lookupA msgs e.1 with
      | some cur =>
        simp only [hm]
        rw [ih hN2.2 _ id, lookupA_updateA_ne _ _ _ hne, hcons]
      | none =>
        simp only [hm]
        rw [ih hN2.2 _ id, lookupA_append_ne _ _ _ hne, hcons]

theorem pushInner_keys_nodup (es : List (String × String × Bool)) :
    ∀ (msgs : List (String × String × Bool)), ((msgs.map (·.1)).Nodup) →
      (((es.foldl
          (fun msgs e =>
            match lookupA msgs e.1 with
            | some cur => updateA msgs e.1 (cur.1 ++ "\n" ++ e.2.1, cur.2 || e.2.2)
            | none => msgs ++ [(e.1, "" ++ "\n" ++ e.2.1, false || e.2.2)])
          msgs)).map (·.1)).Nodup := by
  induction es with
  | nil => intro msgs h; exact h
  | cons e rest ih =>
    intro msgs h
    rw [List.foldl_cons]
    apply ih
    cases hm : lookupA msgs e.1 with
    | some cur =>
      simp only [hm]
      rw [updateA_keys]
      exact h
    | none =>
      simp only [hm]
      simp only [List.map_append, List.map_cons, List.map_nil]
      rw [List.nodup_append]
      refine ⟨h, by simp, ?_⟩
      intro a ha hb
      simp only [List.mem_singleton] at hb
      subst hb
      obtain ⟨x, hx, hx1⟩ := List.mem_map.mp ha
      have hsome : (msgs.find? (fun p => p.1 == e.1)).isSome :=
        List.find?_isSome.mpr ⟨x, hx, by simp [hx1]⟩
      have hnone1 : msgs.find? (fun p => p.1 == e.1) = none := by
        have h0 := hm
        unfold lookupA at h0
        exact Option.map_eq_none'.mp h0
      rw [hnone1] at hsome
      simp at hsome

theorem pushAccumulate_keys_nodup (commits : List Commit) (ref : String) :
    ((pushAccumulate commits ref).map (·.1)).Nodup := by
  unfold pushAccumulate
  have hgen : ∀ (cs : List Commit) (msgs : List (String × String × Bool)),
      ((msgs.map (·.1)).Nodup) →
      (((cs.foldl (fun messages commit =>
          (push_handle_action commit ref).foldl
            (fun msgs e =>
              match lookupA msgs e.1 with
              | some cur => updateA msgs e.1 (cur.1 ++ "\n" ++ e.2.1, cur.2 || e.2.2)
              | none => msgs ++ [(e.1, "" ++ "\n" ++ e.2.1, false || e.2.2)])
            messages) msgs)).map (·.1)).Nodup := by
    intro cs
    induction cs with
    | nil => intro msgs h; exact h
    | cons cm rest ih =>
      intro msgs h
      rw [List.foldl_cons]
      exact ih _ (pushInner_keys_nodup (push_handle_action cm ref) msgs h)
  exact hgen commits [] (by simp)

theorem pushAccumulate_fold_lookup (ref : String) :
    ∀ (commits : List Commit) (msgs : List (String × String × Bool)) (id : String),
      lookupA (commits.foldl
          (fun messages commit =>
            (push_handle_action commit ref).foldl
              (fun msgs e =>
                match lookupA msgs e.1 with
                | some cur => updateA msgs e.1 (cur.1 ++ "\n" ++ e.2.1, cur.2 || e.2.2)
                | none => msgs ++ [(e.1, "" ++ "\n" ++ e.2.1, false || e.2.2)])
              messages)
          msgs) id =
        (commitBlocks commits ref id).foldl
          (fun cur b =>
            match cur with
            | some c => some (c.1 ++ "\n" ++ b.1, c.2 || b.2)
            | none => some ("" ++ "\n" ++ b.1, false || b.2))
          (lookupA msgs id) := by
  intro commits
  induction commits with
  | nil => intro msgs id; rfl
  | cons c cs ih =>
    intro msgs id
    rw [List.foldl_cons]
    have hinner := pushInner_lookup (push_handle_action c ref)
      (push_handle_action_keys_nodup c ref) msgs id
    cases hb : lookupA (push_handle_action c ref) id with
    | none =>
      have hb1 : ((push_handle_action c ref).find?
          (fun e => e.1 == id)).map (fun e => e.2) = none := hb
      have hcb : commitBlocks (c :: cs) ref id = commitBlocks cs ref id := by
        unfold commitBlocks
        rw [@List.filterMap_cons_none Commit (String × Bool)
          (fun c2 : Commit => ((push_handle_action c2 ref).find?
            (fun e => e.1 == id)).map (fun e => e.2)) c cs hb1]
      have h1 : lookupA ((push_handle_action c ref).foldl
          (fun msgs e =>
            match lookupA msgs e.1 with
            | some cur => updateA msgs e.1 (cur.1 ++ "\n" ++ e.2.1, cur.2 || e.2.2)
            | none => msgs ++ [(e.1, "" ++ "\n" ++ e.2.1, false || e.2.2)])
          msgs) id = lookupA msgs id := hinner.trans (by rw [hb])
      exact (ih _ id).trans
        ((congrArg (fun z => (commitBlocks cs ref id).foldl
          (fun cur b =>
            match cur with
            | some c => some (c.1 ++ "\n" ++ b.1, c.2 || b.2)
            | none => some ("" ++ "\n" ++ b.1, false || b.2)) z) h1).trans
          (by rw [hcb]))
    | some b =>
      have hb1 : ((push_handle_action c ref).find?
          (fun e => e.1 == id)).map (fun e => e.2) = some b := hb
      have hcb : commitBlocks (c :: cs) ref id = b :: commitBlocks cs ref id := by
        unfold commitBlocks
        rw [@List.filterMap_cons_some Commit (String × Bool)
          (fun c2 : Commit => ((push_handle_action c2 ref).find?
            (fun e => e.1 == id)).map (fun e => e.2)) c cs b hb1]
      have h1 : lookupA ((push_handle_action c ref).foldl
          (fun msgs e =>
            match lookupA msgs e.1 with
            | some cur => updateA msgs e.1 (cur.1 ++ "\n" ++ e.2.1, cur.2 || e.2.2)
            | none => msgs ++ [(e.1, "" ++ "\n" ++ e.2.1, false || e.2.2)])
          msgs) id =
          (match lookupA msgs id with
           | some cur => some (cur.1 ++ "\n" ++ b.1, cur.2 || b.2)
           | none => some ("" ++ "\n" ++ b.1, false || b.2)) :=
        hinner.trans (by
          rw [hb]
          cases lookupA msgs id with
          | some cur => rfl
          | none => rfl)
      refine (ih _ id).trans ?_
      refine (congrArg (fun z => (commitBlocks cs ref id).foldl
          (fun cur b =>
            match cur with
            | some c => some (c.1 ++ "\n" ++ b.1, c.2 || b.2)
            | none => some ("" ++ "\n" ++ b.1, false || b.2)) z) h1).trans ?_
      rw [hcb, List.foldl_cons]

theorem intercalate_cons_foldl (s x : String) (xs : List String) :
    String.intercalate s (x :: xs) = xs.foldl (fun a y => a ++ s ++ y) x := by
  show String.intercalate.go x s xs = _
  induction xs generalizing x with
  | nil => rfl
  | cons y ys ih =>
    show String.intercalate.go (x ++ s ++ y) s ys = _
    rw [List.foldl_cons]
    exact ih (x ++ s ++ y)

theorem append_foldl_join (l : List String) :
    ∀ (s x : String),
      s ++ l.foldl (fun a y => a ++ "\n" ++ y) x =
        l.foldl (fun a y => a ++ "\n" ++ y) (s ++ x) := by
  induction l with
  | nil => intro s x; rfl
  | cons y ys ih =>
    intro s x
    rw [List.foldl_cons, List.foldl_cons]
    refine (ih s (x ++ "\n" ++ y)).trans ?_
    show ys.foldl (fun a y => a ++ "\n" ++ y) (s ++ (x ++ "\n" ++ y)) =
      ys.foldl (fun a y => a ++ "\n" ++ y) ((s ++ x) ++ "\n" ++ y)
    rw [show ((s ++ x) ++ "\n" ++ y : String) = s ++ (x ++ "\n" ++ y) from by
      simp [String.append_assoc]]

theorem pairfold_fst (bs : List (String × Bool)) :
    ∀ (m : String) (c : Bool),
      (bs.foldl (fun a b => (a.1 ++ "\n" ++ b.1, a.2 || b.2)) (m, c)).1 =
        (bs.map (·.1)).foldl (fun a y => a ++ "\n" ++ y) m := by
  induction bs with
  | nil => intro m c; rfl
  | cons b t ih =>
    intro m c
    rw [List.map_cons, List.foldl_cons, List.foldl_cons]
    exact ih (m ++ "\n" ++ b.1) (c || b.2)

theorem pairfold_snd (bs : List (String × Bool)) :
    ∀ (m : String) (c : Bool),
      (bs.foldl (fun a b => (a.1 ++ "\n" ++ b.1, a.2 || b.2)) (m, c)).2 =
        (c || bs.any (·.2)) := by
  induction bs with
  | nil => intro m c; rw [List.foldl_nil, List.any_nil, Bool.or_false]
  | cons b t ih =>
    intro m c
    rw [List.foldl_cons, List.any_cons, ← Bool.or_assoc]
    exact ih (m ++ "\n" ++ b.1) (c || b.2)

theorem optfold_some_eq (bs : List (String × Bool)) :
    ∀ (m : String) (cb : Bool),
      bs.foldl (fun cur b =>
          match cur with
          | some c => some (c.1 ++ "\n" ++ b.1, c.2 || b.2)
          | none => some ("" ++ "\n" ++ b.1, false || b.2))
        (some (m, cb)) =
      some (bs.foldl (fun a b => (a.1 ++ "\n" ++ b.1, a.2 || b.2)) (m, cb)) := by
  induction bs with
  | nil => intro m cb; rfl
  | cons b t ih =>
    intro m cb
    rw [List.foldl_cons, List.foldl_cons]
    exact ih (m ++ "\n" ++ b.1) (cb || b.2)

theorem find?_msgs_fresh_none (db : DB) (hfresh : msgsFresh db) :
    db.msgs.find? (fun p => p.1 == db.nextMsg) = none := by
  rw [List.find?_eq_none]
  intro x hx hq
  exact absurd (eq_of_beq hq ▸ hfresh x hx) (lt_irrefl _)

theorem lookupMsg_mono {db2 db : DB} (x : Nat × MsgNode)
    (h : db2.msgs = db.msgs ++ [x]) (k : Nat) (v : MsgNode)
    (hk : lookupMsg db k = some v) : lookupMsg db2 k = some v := by
  unfold lookupMsg at hk ⊢
  rw [h, List.find?_append]
  cases hq : db.msgs.find? (fun p => p.1 == k) with
  | none => rw [hq] at hk; simp at hk
  | some e =>
    rw [hq] at hk
    exact hk

theorem lookupIssue_setIssueField_self (db : DB) (id : String) (f : Issue → Issue) :
    lookupIssue (setIssueField db id f) id = (lookupIssue db id).map f := by
  unfold setIssueField
  cases h : lookupIssue db id with
  | none => simp only [h, Option.map_none']
  | some i2 => simp only [h, lookupIssue_issueSet_self, Option.map_some']

theorem lookupIssue_setIssueField_ne (db : DB) {id j : String} (f : Issue → Issue)
    (hne : j ≠ id) :
    lookupIssue (setIssueField db id f) j = lookupIssue db j := by
  unfold setIssueField
  cases h : lookupIssue db id with
  | none => simp only [h]
  | some i2 =>
    simp only [h]
    exact lookupIssue_issueSet_ne _ _ hne

theorem setIssueField_state (db : DB) (id : String) (f : Issue → Issue) :
    (setIssueField db id f).msgs = db.msgs ∧
    (setIssueField db id f).nextMsg = db.nextMsg ∧
    (setIssueField db id f).commits = db.commits ∧
    (setIssueField db id f).curUser = db.curUser := by
  unfold setIssueField
  cases h : lookupIssue db id with
  | none => exact ⟨rfl, rfl, rfl, rfl⟩
  | some i2 => exact ⟨rfl, rfl, rfl, rfl⟩

theorem pushApplyOne_spec (db : DB) (id msg : String) (close : Bool) (iss : Issue)
    (hiss : lookupIssue db id = some iss) :
    ∃ db2, pushApplyOne db id msg close = .ok db2 ∧
      db2.msgs = db.msgs ++ [(db.nextMsg, ⟨msg, db.curUser⟩)] ∧
      db2.nextMsg = db.nextMsg + 1 ∧
      db2.commits = db.commits ∧
      db2.curUser = db.curUser ∧
      (∀ j, j ≠ id → lookupIssue db2 j = lookupIssue db j) ∧
      lookupIssue db2 id = some { iss with
        messages := iss.messages ++ [db.nextMsg],
        status := if close then some (statusLookup "closed") else iss.status,
        resolution := if close then some (statusLookup "fixed") else iss.resolution,
        stage := if close then some (statusLookup "resolved") else iss.stage } := by
  cases close with
  | false =>
    refine ⟨issueSet (msgCreate db msg).1 id
        { iss with messages := iss.messages ++ [(msgCreate db msg).2] },
      ?_, rfl, rfl, rfl, rfl, ?_, ?_⟩
    · unfold pushApplyOne
      simp only [hiss]
      rfl
    · intro j hj
      rw [lookupIssue_issueSet_ne _ _ hj]
      rfl
    · rw [lookupIssue_issueSet_self,
        show lookupIssue (msgCreate db msg).1 id = lookupIssue db id from rfl, hiss]
      rfl
  | true =>
    refine ⟨setIssueField (setIssueField (setIssueField
        (issueSet (msgCreate db msg).1 id
          { iss with messages := iss.messages ++ [(msgCreate db msg).2] }) id
        (fun i2 => { i2 with status := some (statusLookup "closed") })) id
        (fun i2 => { i2 with resolution := some (statusLookup "fixed") })) id
        (fun i2 => { i2 with stage := some (statusLookup "resolved") }),
      ?_, ?_, ?_, ?_, ?_, ?_, ?_⟩
    · unfold pushApplyOne
      simp only [hiss]
      rfl
    · rw [(setIssueField_state _ _ _).1, (setIssueField_state _ _ _).1,
        (setIssueField_state _ _ _).1]
      rfl
    · rw [(setIssueField_state _ _ _).2.1, (setIssueField_state _ _ _).2.1,
        (setIssueField_state _ _ _).2.1]
      rfl
    · rw [(setIssueField_state _ _ _).2.2.1, (setIssueField_state _ _ _).2.2.1,
        (setIssueField_state _ _ _).2.2.1]
      rfl
    · rw [(setIssueField_state _ _ _).2.2.2, (setIssueField_state _ _ _).2.2.2,
        (setIssueField_state _ _ _).2.2.2]
      rfl
    · intro j hj
      rw [lookupIssue_setIssueField_ne _ _ hj, lookupIssue_setIssueField_ne _ _ hj,
        lookupIssue_setIssueField_ne _ _ hj, lookupIssue_issueSet_ne _ _ hj]
      rfl
    · rw [lookupIssue_setIssueField_self, lookupIssue_setIssueField_self,
        lookupIssue_setIssueField_self, lookupIssue_issueSet_self,
        show lookupIssue (msgCreate db msg).1 id = lookupIssue db id from rfl, hiss]
      rfl

theorem pushApply_spec :
    ∀ (l : List (String × String × Bool)) (db : DB),
      ((l.map (·.1)).Nodup) →
      (∀ e ∈ l, (lookupIssue db e.1).isSome) →
      msgsFresh db →
      ∃ db2, pushApply db l = .ok db2 ∧
        msgsFresh db2 ∧
        db2.commits = db.commits ∧
        (∀ j, (∀ e ∈ l, e.1 ≠ j) → lookupIssue db2 j = lookupIssue db j) ∧
        (∀ k v, lookupMsg db k = some v → lookupMsg db2 k = some v) ∧
        (∀ e ∈ l, ∀ iss, lookupIssue db e.1 = some iss →
          ∃ mid, lookupIssue db2 e.1 = some { iss with
              messages := iss.messages ++ [mid],
              status := if e.2.2 then some (statusLookup "closed") else iss.status,
              resolution := if e.2.2 then some (statusLookup "fixed") else iss.resolution,
              stage := if e.2.2 then some (statusLookup "resolved") else iss.stage } ∧
            (lookupMsg db2 mid).map (·.content) = some e.2.1) := by
  intro l
  induction l with
  | nil =>
    intro db _ _ hfresh
    exact ⟨db, rfl, hfresh, rfl, fun j _ => rfl, fun k v h => h, by simp⟩
  | cons e rest ih =>
    intro db hN hEx hfresh
    have hN2 : (e.1 ∉ rest.map (·.1)) ∧ ((rest.map (·.1)).Nodup) := by
      rw [List.map_cons] at hN
      exact List.nodup_cons.mp hN
    have hexE : (lookupIssue db e.1).isSome = true := hEx e (List.mem_cons_self e rest)
    cases hiss : lookupIssue db e.1 with
    | none => rw [hiss] at hexE; simp at hexE
    | some iss =>
      obtain ⟨dba, heq, hmsgs, hnm, hcom, hcu, hframe, hself⟩ :=
        pushApplyOne_spec db e.1 e.2.1 e.2.2 iss hiss
      have hfresha : msgsFresh dba := by
        intro p hp
        rw [hmsgs] at hp
        rw [hnm]
        rcases List.mem_append.mp hp with hp1 | hp2
        · exact Nat.lt_succ_of_lt (hfresh p hp1)
        · simp only [List.mem_singleton] at hp2
          subst hp2
          exact Nat.lt_succ_self _
      have hExr : ∀ e2 ∈ rest, (lookupIssue dba e2.1).isSome := by
        intro e2 he2
        have hne : e2.1 ≠ e.1 := fun hc => hN2.1 (hc ▸ List.mem_map.mpr ⟨e2, he2, rfl⟩)
        rw [hframe e2.1 hne]
        exact hEx e2 (List.mem_cons_of_mem e he2)
      obtain ⟨db2, heq2, hfresh2, hcom2, hframe2, hmono2, hmain2⟩ := ih dba hN2.2 hExr hfresha
      refine ⟨db2, ?_, hfresh2, hcom2.trans hcom, ?_, ?_, ?_⟩
      · unfold pushApply
        simp only [heq]
        exact heq2
      · intro j hj
        have hne : e.1 ≠ j := hj e (List.mem_cons_self e rest)
        rw [hframe2 j (fun e2 he2 => hj e2 (List.mem_cons_of_mem e he2)),
          hframe j (Ne.symm hne)]
      · intro k v hk
        exact hmono2 k v (lookupMsg_mono _ hmsgs k v hk)
      · intro e2 he2 iss2 hiss2
        rcases List.mem_cons.mp he2 with rfl | hmem
        · rw [hiss] at hiss2
          injection hiss2 with hi
          subst hi
          refine ⟨db.nextMsg, ?_, ?_⟩
          · have hstay : lookupIssue db2 e2.1 = lookupIssue dba e2.1 :=
              hframe2 e2.1 (fun e3 he3 hc => hN2.1 (hc ▸ List.mem_map.mpr ⟨e3, he3, rfl⟩))
            rw [hstay]
            exact hself
          · have hm1 : lookupMsg dba db.nextMsg = some ⟨e2.2.1, db.curUser⟩ := by
              unfold lookupMsg
              rw [hmsgs, List.find?_append, find?_msgs_fresh_none db hfresh]
              simp only [Option.none_or, List.find?_cons, beq_self_eq_true]
              rfl
            rw [hmono2 db.nextMsg ⟨e2.2.1, db.curUser⟩ hm1]
            rfl
        · have hne : e2.1 ≠ e.1 := fun hc => hN2.1 (hc ▸ List.mem_map.mpr ⟨e2, hmem, rfl⟩)
          have hiss2a : lookupIssue dba e2.1 = some iss2 := by
            rw [hframe e2.1 hne]
            exact hiss2
          exact hmain2 e2 hmem iss2 hiss2a

/-- C1 (amended): a push whose commits reference at least one issue, each
referenced issue resolving in the store, appends exactly one new message per
referenced issue; its content is a NEWLINE followed by the newline-joined
concatenation of that issue's per-commit comment blocks in payload (oldest
first) commit order — the accumulator starts from the empty string and always
prepends `'\n'` before appending, so the claimed plain newline-join is off by
a leading newline (see the counterexample).  The issue's status, resolution
and stage move to closed/fixed/resolved exactly when the OR of its
per-commit close flags is true (they are untouched otherwise), and the store
commit runs exactly once, after all issues are processed. -/
theorem c1_push_amended (db : DB) (data : PushPayload) (ref : String)
    (href : (data.ref).getD "refs/heads/master" = ref)
    (hne : pushAccumulate data.commits ref ≠ [])
    (hEx : ∀ e ∈ pushAccumulate data.commits ref, (lookupIssue db e.1).isSome)
    (hfresh : msgsFresh db) :
    ∃ db1, Push_dispatch db data = .ok db1 ∧
      db1.commits = db.commits + 1 ∧
      ∀ id m c, lookupA (pushAccumulate data.commits ref) id = some (m, c) →
        m = "\n" ++ String.intercalate "\n"
            ((commitBlocks data.commits ref id).map (·.1)) ∧
        c = (commitBlocks data.commits ref id).any (·.2) ∧
        ∀ iss, lookupIssue db id = some iss →
          ∃ mid, lookupIssue db1 id = some { iss with
              messages := iss.messages ++ [mid],
              status := if c then some "closed" else iss.status,
              resolution := if c then some "fixed" else iss.resolution,
              stage := if c then some "resolved" else iss.stage } ∧
            (lookupMsg db1 mid).map (·.content) = some m := by
  have hst := set_roundup_user_state db data.pusherName
  have hN := pushAccumulate_keys_nodup data.commits ref
  have hEx0 : ∀ e ∈ pushAccumulate data.commits ref,
      (lookupIssue (set_roundup_user db data.pusherName) e.1).isSome := by
    intro e he
    rw [lookupIssue_eq_of_issues hst.1]
    exact hEx e he
  have hfresh0 : msgsFresh (set_roundup_user db data.pusherName) := by
    intro p hp
    rw [hst.2.2.2.1] at hp
    rw [hst.2.2.2.2.1]
    exact hfresh p hp
  obtain ⟨db2, heq2, hfresh2, hcom2, hframe2, hmono2, hmain2⟩ :=
    pushApply_spec (pushAccumulate data.commits ref)
      (set_roundup_user db data.pusherName) hN hEx0 hfresh0
  refine ⟨dbCommit db2, ?_, ?_, ?_⟩
  · unfold Push_dispatch
    rw [href]
    rw [show (pushAccumulate data.commits ref).isEmpty = false from by
      rw [List.isEmpty_eq_false]; exact hne]
    rw [if_neg Bool.false_ne_true]
    simp only [heq2]
  · rw [show (dbCommit db2).commits = db2.commits + 1 from rfl, hcom2,
      hst.2.2.2.2.2.2.2]
  · intro id m c hlook
    have hacc : lookupA (pushAccumulate data.commits ref) id =
        (commitBlocks data.commits ref id).foldl
          (fun cur b =>
            match cur with
            | some c => some (c.1 ++ "\n" ++ b.1, c.2 || b.2)
            | none => some ("" ++ "\n" ++ b.1, false || b.2))
          none :=
      pushAccumulate_fold_lookup ref data.commits [] id
    rw [hlook] at hacc
    cases hbk : commitBlocks data.commits ref id with
    | nil =>
      rw [hbk] at hacc
      simp at hacc
    | cons b bs =>
      rw [hbk, List.foldl_cons] at hacc
      have hpair2 : (m, c) =
          bs.foldl (fun a b => (a.1 ++ "\n" ++ b.1, a.2 || b.2)) ("\n" ++ b.1, b.2) := by
        have h3 : (some (m, c) : Option (String × Bool)) =
            some (bs.foldl (fun a b => (a.1 ++ "\n" ++ b.1, a.2 || b.2))
              ("\n" ++ b.1, b.2)) :=
          hacc.trans (optfold_some_eq bs ("" ++ "\n" ++ b.1) (false || b.2))
        injection h3
      have hm : m = "\n" ++ String.intercalate "\n" ((b :: bs).map (·.1)) := by
        rw [List.map_cons, intercalate_cons_foldl, append_foldl_join,
          show m = (bs.foldl (fun a b => (a.1 ++ "\n" ++ b.1, a.2 || b.2))
            ("\n" ++ b.1, b.2)).1 from congrArg Prod.fst hpair2,
          pairfold_fst]
      have hc : c = (b :: bs).any (·.2) := by
        rw [List.any_cons,
          show c = (bs.foldl (fun a b => (a.1 ++ "\n" ++ b.1, a.2 || b.2))
            ("\n" ++ b.1, b.2)).2 from congrArg Prod.snd hpair2,
          pairfold_snd]
      refine ⟨hm, hc, ?_⟩
      intro iss hiss
      have hmem : (id, (m, c)) ∈ pushAccumulate data.commits ref := by
        unfold lookupA at hlook
        obtain ⟨e, he, he2⟩ := Option.map_eq_some'.mp hlook
        have hmm := List.mem_of_find?_eq_some he
        have hp := List.find?_some he
        have hee : e = (id, (m, c)) := by
          cases e with
          | mk k v =>
            simp only at hp he2
            simp only [Prod.mk.injEq]
            exact ⟨eq_of_beq hp, he2⟩
        rw [← hee]
        exact hmm
      have hiss0 : lookupIssue (set_roundup_user db data.pusherName) id = some iss := by
        rw [lookupIssue_eq_of_issues hst.1]
        exact hiss
      obtain ⟨mid, hlk, hct⟩ := hmain2 (id, (m, c)) hmem iss hiss0
      refine ⟨mid, ?_, ?_⟩
      · rw [show lookupIssue (dbCommit db2) id = lookupIssue db2 id from rfl]
        exact hlk
      · rw [show lookupMsg (dbCommit db2) mid = lookupMsg db2 mid from rfl]
        exact hct

/-- Witness for C1 (amended): one commit `closes #1` on a store holding
issue 1. -/
theorem c1_push_amended_witness :
    ∃ db1, Push_dispatch { issues := [("1", {})] }
        { commits := [{ id := "d", message := "closes #1", url := "u", committerName := "A" }] } = .ok db1 ∧
      db1.commits = ({ issues := [("1", {})] } : DB).commits + 1 ∧
      ∀ id m c, lookupA (pushAccumulate
          [{ id := "d", message := "closes #1", url := "u", committerName := "A" }]
          "refs/heads/master") id = some (m, c) →
        m = "\n" ++ String.intercalate "\n"
            ((commitBlocks [{ id := "d", message := "closes #1", url := "u", committerName := "A" }]
              "refs/heads/master" id).map (·.1)) ∧
        c = (commitBlocks [{ id := "d", message := "closes #1", url := "u", committerName := "A" }]
              "refs/heads/master" id).any (·.2) ∧
        ∀ iss, lookupIssue { issues := [("1", {})] } id = some iss →
          ∃ mid, lookupIssue db1 id = some { iss with
              messages := iss.messages ++ [mid],
              status := if c then some "closed" else iss.status,
              resolution := if c then some "fixed" else iss.resolution,
              stage := if c then some "resolved" else iss.stage } ∧
            (lookupMsg db1 mid).map (·.content) = some m :=
  c1_push_amended { issues := [("1", {})] }
    { commits := [{ id := "d", message := "closes #1", url := "u", committerName := "A" }] }
    "refs/heads/master" rfl (by decide) (by decide) (by decide)

/-- C10 counterexample: `URL_RE`'s dots are unescaped, so
`https://githubXcom/python/cpython/pull/54321` — which does not match the
fixed literal pattern — still yields pull-request number 54321. -/
theorem c10_counterexample :
    IC_get_pr_details
        { issue :=
            some { pullRequestHtmlUrl := some "https://githubXcom/python/cpython/pull/54321" } } =
      .ok (some "54321", none, none) ∧
    fixedCPythonPullUrl "https://githubXcom/python/cpython/pull/54321" = false := by
  exact ⟨rfl, by decide⟩

end BpoRoundup
